import Mathlib

/-!
# kubepug: detection of deleted Kubernetes APIs

A shallow embedding of `pkg/kubepug/input/k8s/deleted.go` and the properties
of its detection algorithm.

Conventions of the embedding.

* Go strings are Lean strings; the few functions of package `strings` the file
  uses work on the characters of the string.
* A pointer that may be `nil` is an `Option`; dereferencing `none` is a runtime
  panic.
* `log.Fatalf` ends the process; a runtime panic ends it too.  Both are explicit
  outcomes of a run (`Outcome.fatal`, `Outcome.panic`).
* The cluster is reached only through `List` calls of the dynamic client.  Every
  function that can issue such a call takes the log of the calls issued so far
  and returns the extended log, also when the run is cut short.
-/

namespace Kubepug

/-! ## Package `strings` and `schema.ParseGroupVersion` -/

/-- Pieces of a character sequence cut at every '/'. -/
def splitSlash : List Char → List (List Char)
  | [] => [[]]
  | c :: cs =>
    if c = '/' then [] :: splitSlash cs
    else
      match splitSlash cs with
      | [] => [[c]]
      | piece :: rest => (c :: piece) :: rest

/-- Go `strings.Split(s, "/")`; the source splits on no other separator. -/
def strings_Split (s : String) : List String :=
  (splitSlash s.data).map String.mk

/-- Whether `sub` occurs as a contiguous run inside the character sequence. -/
def containsChars (sub : List Char) : List Char → Bool
  | [] => sub.isEmpty
  | c :: cs => sub.isPrefixOf (c :: cs) || containsChars sub cs

/-- Go `strings.Contains(s, substr)`. -/
def strings_Contains (s substr : String) : Bool :=
  containsChars substr.data s.data

/-- Type `schema.GroupVersion`. -/
structure GroupVersion where
  Group : String
  Version : String
  deriving DecidableEq, Repr

/-- Library function `schema.ParseGroupVersion` (k8s.io/apimachinery): the empty
string and "/" give the empty group/version, a string without '/' is a bare
version of the core group, one '/' separates group from version, and more than
one '/' is an error (`none`). -/
def ParseGroupVersion (gv : String) : Option GroupVersion :=
  if gv.data.length = 0 ∨ gv = "/" then some ⟨"", ""⟩
  else
    match gv.data.count '/' with
    | 0 => some ⟨"", gv⟩
    | 1 =>
      some ⟨String.mk (gv.data.takeWhile (fun c => c != '/')),
            String.mk ((gv.data.dropWhile (fun c => c != '/')).drop 1)⟩
    | _ => none

/-! ## Unstructured objects -/

/-- The dynamic values held by an `interface{}` inside an unstructured object.
JSON numbers are kept as integers: nothing in this package computes with them. -/
inductive Value where
  | nil
  | bool (b : Bool)
  | number (n : Int)
  | str (s : String)
  | slice (l : List Value)
  | map (m : List (String × Value))

/-- Type `unstructured.Unstructured`: field `Object` is a `map[string]interface{}`,
kept as an association list read with `List.lookup`. -/
structure Unstructured where
  Object : List (String × Value)

/-- Type `unstructured.UnstructuredList`, reduced to its `Items`. -/
structure UnstructuredList where
  Items : List Unstructured

/-- Library function `unstructured.NestedFieldNoCopy`: walks the path from the
object; the result is `(value, found, err)` with `err = true` for a non-nil
error. A nil value or a missing key on the way is "not found" without error; a
value that is not a map on the way is an error. -/
def NestedFieldNoCopy.walk : Value → List String → Value × Bool × Bool
  | val, [] => (val, true, false)
  | .nil, _ :: _ => (.nil, false, false)
  | .map m, field :: rest =>
    match m.lookup field with
    | none => (.nil, false, false)
    | some val => NestedFieldNoCopy.walk val rest
  | _, _ :: _ => (.nil, false, true)

/-- Library function `unstructured.NestedFieldNoCopy`. -/
def NestedFieldNoCopy (obj : List (String × Value)) (fields : List String) :
    Value × Bool × Bool :=
  NestedFieldNoCopy.walk (.map obj) fields

/-- Library function `unstructured.NestedString`: `(s, found, err)`; a value that
is found but is not a string is reported as not found, with an error. -/
def NestedString (obj : List (String × Value)) (fields : List String) :
    String × Bool × Bool :=
  match NestedFieldNoCopy obj fields with
  | (val, found, err) =>
    if !found || err then ("", found, err)
    else
      match val with
      | .str s => (s, true, false)
      | _ => ("", false, true)

/-- Library function `spew.Sprint` (github.com/davecgh/go-spew) on one operand: a
nil interface prints as `<nil>`, a string prints as itself; `spewOther` is the
text printed for every other value. -/
def spew_Sprint (spewOther : Value → String) : Value → String
  | .nil => "<nil>"
  | .str s => s
  | v => spewOther v

/-! ## The cluster -/

/-- Type `schema.GroupVersionResource`. -/
structure GroupVersionResource where
  Group : String
  Version : String
  Resource : String
  deriving DecidableEq, Repr

/-- The classes of API error the source tells apart with `apierrors.IsNotFound`,
`apierrors.IsMethodNotSupported` and `apierrors.IsForbidden`. -/
inductive StatusReason where
  | NotFound
  | MethodNotSupported
  | Forbidden
  | Other
  deriving DecidableEq, Repr

/-- Go `apierrors.IsNotFound(err)`; `none` is the nil error. -/
def apierrors_IsNotFound (err : Option StatusReason) : Bool :=
  err = some .NotFound

/-- Go `apierrors.IsMethodNotSupported(err)`. -/
def apierrors_IsMethodNotSupported (err : Option StatusReason) : Bool :=
  err = some .MethodNotSupported

/-- Go `apierrors.IsForbidden(err)`. -/
def apierrors_IsForbidden (err : Option StatusReason) : Bool :=
  err = some .Forbidden

/-- What `dynClient.Resource(gvr).List(...)` hands back: a list pointer and an
error. The interface promises nothing about the pointer when the error is set. -/
structure ListReply where
  list : Option UnstructuredList
  err : Option StatusReason

/-- Interface `dynamic.Interface`, as far as the source uses it. -/
abbrev DynClient := GroupVersionResource → ListReply

/-- Type `metav1.APIResource`, reduced to the fields the source reads. -/
structure APIResource where
  Name : String
  Kind : String
  deriving DecidableEq, Repr

/-- Type `metav1.APIResourceList`. -/
structure APIResourceList where
  GroupVersion : String
  APIResources : List APIResource
  deriving DecidableEq, Repr

/-- What `GetDeleted` obtains from `*genericclioptions.ConfigFlags`: whether each
client constructor fails, the reply of `ServerPreferredResources`, and the
dynamic client. -/
structure ConfigFlags where
  toRESTConfigErr : Bool
  discoveryClientErr : Bool
  serverPreferredResources : List APIResourceList
  serverPreferredResourcesErr : Option StatusReason
  dynamicClientErr : Bool
  dynClient : DynClient

/-! ## Runs -/

/-- How a piece of the program ends. -/
inductive Outcome (α : Type) where
  | ok (a : α)
  | fatal
  | panic

/-- The outcome of a piece of the program with the `List` calls issued so far. -/
structure Run (α : Type) where
  out : Outcome α
  calls : List GroupVersionResource

/-- Sequencing: the continuation runs only after a normal end. -/
def Run.andThen {α β : Type} (r : Run α)
    (k : α → List GroupVersionResource → Run β) : Run β :=
  match r.out with
  | .ok a => k a r.calls
  | .fatal => ⟨.fatal, r.calls⟩
  | .panic => ⟨.panic, r.calls⟩

/-- A Go `for _, x := range xs` loop over a body that may end the process. -/
def forRange {σ β : Type} (body : σ → β → List GroupVersionResource → Run σ) :
    List β → σ → List GroupVersionResource → Run σ
  | [], s, calls => ⟨.ok s, calls⟩
  | x :: xs, s, calls => (body s x calls).andThen (forRange body xs)

/-! ## `deleted.go` -/

/-- Type `ignoreStruct`, a `map[string]struct{}` used as a set of API groups. -/
abbrev ignoreStruct := List String

/-- Type `groupResourceKind`. -/
structure groupResourceKind where
  GroupVersion : String
  ResourceName : String
  ResourceKind : String
  deriving DecidableEq, Repr

def crdGroup : String := "apiextensions.k8s.io"

def apiRegistration : String := "apiregistration.k8s.io"

/-- Maps the deleted APIs to their replacements. -/
def deletedAPIReplacements : List (String × groupResourceKind) :=
  [("extensions/v1beta1/Ingress", ⟨"networking.k8s.io/v1", "ingresses", "Ingress"⟩)]

/-- Type `parser.KubernetesAPIs`, a map of which only the keys are read. -/
abbrev KubernetesAPIs := List String

/-- One reported object. -/
structure Item where
  Namespace : String
  Name : String
  UID : String
  deriving DecidableEq, Repr

/-- Type `results.DeletedAPI`, with the fields `GetDeleted` sets. -/
structure DeletedAPI where
  Deleted : Bool
  Name : String
  Group : String
  Kind : String
  Version : String
  Items : List Item
  deriving DecidableEq, Repr

/-- Modelled from the spec: `results.ListObjects` of package `pkg/results`, which
is not among the sources. The spec's data model says a DeletedAPI result carries
"the ordered list of live object items (each item retains enough identity —
namespace, name, UID — to be reported)": one reported item per object, in order. -/
def ListObjects (items : List Unstructured) : List Item :=
  items.map fun d =>
    { Namespace := (NestedString d.Object ["metadata", "namespace"]).1
      Name := (NestedString d.Object ["metadata", "name"]).1
      UID := (NestedString d.Object ["metadata", "uid"]).1 }

/-- Body of the loop of `populateCRDGroups`. -/
def populateCRDGroups.body (ignore : ignoreStruct) (d : Unstructured) : ignoreStruct :=
  match NestedString d.Object ["spec", "group"] with
  | (group, found, err) =>
    if err || !found then ignore
    else if group ∈ ignore then ignore
    else ignore ++ [group]

/-- Method `populateCRDGroups`. -/
def populateCRDGroups (ignore : ignoreStruct) (dynClient : DynClient) (version : String)
    (calls : List GroupVersionResource) : Run ignoreStruct :=
  let crdgvr : GroupVersionResource := ⟨crdGroup, version, "customresourcedefinitions"⟩
  let reply := dynClient crdgvr
  let calls := calls ++ [crdgvr]
  if apierrors_IsNotFound reply.err then ⟨.ok ignore, calls⟩
  else if reply.err.isSome then ⟨.fatal, calls⟩
  else
    match reply.list with
    | none => ⟨.panic, calls⟩
    | some crdList => ⟨.ok (crdList.Items.foldl populateCRDGroups.body ignore), calls⟩

/-- Body of the loop of `populateAPIService`. -/
def populateAPIService.body (ignore : ignoreStruct) (d : Unstructured) : ignoreStruct :=
  match NestedString d.Object ["spec", "service", "name"],
        NestedString d.Object ["spec", "group"] with
  | (_, foundSvc, errSvc), (group, foundGrp, errGrp) =>
    if errSvc || !foundSvc || errGrp || !foundGrp then ignore
    else if group ∈ ignore then ignore
    else ignore ++ [group]

/-- Method `populateAPIService`. -/
def populateAPIService (ignore : ignoreStruct) (dynClient : DynClient) (version : String)
    (calls : List GroupVersionResource) : Run ignoreStruct :=
  let apisvcgvr : GroupVersionResource := ⟨apiRegistration, version, "apiservices"⟩
  let reply := dynClient apisvcgvr
  let calls := calls ++ [apisvcgvr]
  if apierrors_IsNotFound reply.err then ⟨.ok ignore, calls⟩
  else if reply.err.isSome then ⟨.fatal, calls⟩
  else
    match reply.list with
    | none => ⟨.panic, calls⟩
    | some apisvcList => ⟨.ok (apisvcList.Items.foldl populateAPIService.body ignore), calls⟩

/-- Function `getResources`. The list pointer of the reply is returned as it
came, also next to a "not found" or "method not supported" error. -/
def getResources (dynClient : DynClient) (grk : groupResourceKind)
    (calls : List GroupVersionResource) :
    Run (GroupVersionResource × Option UnstructuredList) :=
  match ParseGroupVersion grk.GroupVersion with
  | none => ⟨.fatal, calls⟩
  | some gv =>
    let gvr : GroupVersionResource := ⟨gv.Group, gv.Version, grk.ResourceName⟩
    let reply := dynClient gvr
    let calls := calls ++ [gvr]
    if apierrors_IsNotFound reply.err || apierrors_IsMethodNotSupported reply.err then
      ⟨.ok (gvr, reply.list), calls⟩
    else if apierrors_IsForbidden reply.err then ⟨.fatal, calls⟩
    else if reply.err.isSome then ⟨.fatal, calls⟩
    else ⟨.ok (gvr, reply.list), calls⟩

/-- The expression `spew.Sprint(item.Object["metadata"].(map[string]interface{})["uid"])`;
`none` when the type assertion panics. A missing "uid" key reads as nil. -/
def uidKey (spewOther : Value → String) (item : Unstructured) : Option String :=
  match item.Object.lookup "metadata" with
  | some (.map metadata) => some (spew_Sprint spewOther ((metadata.lookup "uid").getD .nil))
  | _ => none

/-- Body of the first loop of `fixDeletedItemsList`; the `map[string]bool` only
ever holds `true`, so it is kept as the list of its keys. -/
def fixDeletedItemsList.collect (spewOther : Value → String) (newAPIItemsMap : List String)
    (item : Unstructured) (calls : List GroupVersionResource) : Run (List String) :=
  match uidKey spewOther item with
  | none => ⟨.panic, calls⟩
  | some uid => ⟨.ok (uid :: newAPIItemsMap), calls⟩

/-- Body of the second loop of `fixDeletedItemsList`. -/
def fixDeletedItemsList.keep (spewOther : Value → String) (newAPIItemsMap : List String)
    (deletedItems : List Unstructured) (item : Unstructured)
    (calls : List GroupVersionResource) : Run (List Unstructured) :=
  match uidKey spewOther item with
  | none => ⟨.panic, calls⟩
  | some uid =>
    if uid ∈ newAPIItemsMap then ⟨.ok deletedItems, calls⟩
    else ⟨.ok (deletedItems ++ [item]), calls⟩

/-- Function `fixDeletedItemsList`. -/
def fixDeletedItemsList (spewOther : Value → String) (dynClient : DynClient)
    (oldAPIItems : List Unstructured) (grk : groupResourceKind)
    (calls : List GroupVersionResource) : Run (List Unstructured) :=
  (getResources dynClient grk calls).andThen fun res calls =>
    match res.2 with
    | none => ⟨.panic, calls⟩
    | some newAPIItems =>
      (forRange (fixDeletedItemsList.collect spewOther) newAPIItems.Items [] calls).andThen
        fun newAPIItemsMap calls =>
          forRange (fixDeletedItemsList.keep spewOther newAPIItemsMap) oldAPIItems [] calls

/-- Body of the loop of `GetDeleted` that fills the ignore set. -/
def GetDeleted.populate (dynClient : DynClient) (ignoreObjects : ignoreStruct)
    (resources : APIResourceList) (calls : List GroupVersionResource) : Run ignoreStruct :=
  (if strings_Contains resources.GroupVersion crdGroup then
      match (strings_Split resources.GroupVersion)[1]? with
      | none => ⟨.panic, calls⟩
      | some version => populateCRDGroups ignoreObjects dynClient version calls
    else ⟨.ok ignoreObjects, calls⟩ : Run ignoreStruct).andThen fun ignoreObjects calls =>
  if strings_Contains resources.GroupVersion apiRegistration then
    match (strings_Split resources.GroupVersion)[1]? with
    | none => ⟨.panic, calls⟩
    | some version => populateAPIService ignoreObjects dynClient version calls
  else ⟨.ok ignoreObjects, calls⟩

/-- Body of the inner loop of `GetDeleted`, over the resources of one
group/version. -/
def GetDeleted.resource (spewOther : Value → String) (kubeAPIs : KubernetesAPIs)
    (dynClient : DynClient) (groupVersion : String) (deleted : List DeletedAPI)
    (resource : APIResource) (calls : List GroupVersionResource) : Run (List DeletedAPI) :=
  if (strings_Split resource.Name).length ≠ 1 then ⟨.ok deleted, calls⟩
  else
    let keyAPI := groupVersion ++ "/" ++ resource.Kind
    if keyAPI ∈ kubeAPIs then ⟨.ok deleted, calls⟩
    else
      (getResources dynClient ⟨groupVersion, resource.Name, resource.Kind⟩ calls).andThen
        fun res calls =>
      (match deletedAPIReplacements.lookup keyAPI with
        | some newAPI =>
          match res.2 with
          | none => ⟨.panic, calls⟩
          | some list =>
            (fixDeletedItemsList spewOther dynClient list.Items newAPI calls).andThen
              fun items calls => ⟨.ok (some (⟨items⟩ : UnstructuredList)), calls⟩
        | none => ⟨.ok res.2, calls⟩ : Run (Option UnstructuredList)).andThen fun list calls =>
      match list with
      | none => ⟨.panic, calls⟩
      | some list =>
        if list.Items.length > 0 then
          ⟨.ok (deleted ++
            [({ Deleted := true, Name := resource.Name, Group := res.1.Group,
                Kind := resource.Kind, Version := res.1.Version,
                Items := ListObjects list.Items } : DeletedAPI)]), calls⟩
        else ⟨.ok deleted, calls⟩

/-- Body of the outer loop of `GetDeleted`, over the discovered group/versions. -/
def GetDeleted.groupVersion (spewOther : Value → String) (kubeAPIs : KubernetesAPIs)
    (dynClient : DynClient) (ignoreObjects : ignoreStruct) (deleted : List DeletedAPI)
    (resourceGroupVersion : APIResourceList) (calls : List GroupVersionResource) :
    Run (List DeletedAPI) :=
  match (strings_Split resourceGroupVersion.GroupVersion)[0]? with
  | none => ⟨.panic, calls⟩
  | some group =>
    if group ∈ ignoreObjects then ⟨.ok deleted, calls⟩
    else
      forRange (GetDeleted.resource spewOther kubeAPIs dynClient
        resourceGroupVersion.GroupVersion) resourceGroupVersion.APIResources deleted calls

/-- The ignore set `GetDeleted` builds from a freshly allocated empty map. -/
def GetDeleted.ignoreObjects (dynClient : DynClient) (resourcesList : List APIResourceList) :
    Run ignoreStruct :=
  forRange (GetDeleted.populate dynClient) resourcesList [] []

/-- Function `GetDeleted`. -/
def GetDeleted (spewOther : Value → String) (kubeAPIs : KubernetesAPIs)
    (config : ConfigFlags) : Run (List DeletedAPI) :=
  if config.toRESTConfigErr then ⟨.fatal, []⟩
  else if config.discoveryClientErr then ⟨.fatal, []⟩
  else if config.serverPreferredResourcesErr.isSome then ⟨.fatal, []⟩
  else if config.dynamicClientErr then ⟨.fatal, []⟩
  else
    (GetDeleted.ignoreObjects config.dynClient config.serverPreferredResources).andThen
      fun ignoreObjects calls =>
        forRange (GetDeleted.groupVersion spewOther kubeAPIs config.dynClient ignoreObjects)
          config.serverPreferredResources [] calls

/-! ## Vocabulary of the properties -/

/-- The value found by following a path of keys through nested maps, if the
whole path exists. -/
def fieldAt : Value → List String → Option Value
  | val, [] => some val
  | .map m, field :: rest =>
    match m.lookup field with
    | some val => fieldAt val rest
    | none => none
  | _, _ :: _ => none

/-- The object has a string at the path of keys, equal to `s`. -/
def hasStringField (d : Unstructured) (path : List String) (s : String) : Prop :=
  fieldAt (.map d.Object) path = some (.str s)

/-- The `metadata.uid` of an item as a value: what is stored under "uid" in its
metadata map, if anything. -/
def metadataUID (item : Unstructured) : Option Value :=
  fieldAt (.map item.Object) ["metadata", "uid"]

/-- Group `G` is declared by an object the cluster returned to one of the logged
`List` calls: as `spec.group` of a CustomResourceDefinition, or as `spec.group`
of an APIService that also has a string `spec.service.name`. -/
def declaredBy (dynClient : DynClient) (calls : List GroupVersionResource) (G : String) : Prop :=
  (∃ version crdList d, ⟨crdGroup, version, "customresourcedefinitions"⟩ ∈ calls ∧
    dynClient ⟨crdGroup, version, "customresourcedefinitions"⟩ = ⟨some crdList, none⟩ ∧
    d ∈ crdList.Items ∧ hasStringField d ["spec", "group"] G) ∨
  (∃ version apisvcList d, ⟨apiRegistration, version, "apiservices"⟩ ∈ calls ∧
    dynClient ⟨apiRegistration, version, "apiservices"⟩ = ⟨some apisvcList, none⟩ ∧
    d ∈ apisvcList.Items ∧ (∃ name, hasStringField d ["spec", "service", "name"] name) ∧
    hasStringField d ["spec", "group"] G)

/-- No logged call names a resource with a '/'. -/
def noSubresourceCall (calls : List GroupVersionResource) : Prop :=
  ∀ gvr ∈ calls, '/' ∉ gvr.Resource.data

/-- The text of a group/version before its first '/'. -/
def groupSegment (gv : String) : String :=
  String.mk (gv.data.takeWhile fun c => c != '/')

/-- The objects the cluster lists for a resource type: none when the group/version
does not parse or the reply carries no list. -/
def liveItems (dynClient : DynClient) (groupVersion resourceName : String) : List Unstructured :=
  match ParseGroupVersion groupVersion with
  | some gv =>
    match (dynClient ⟨gv.Group, gv.Version, resourceName⟩).list with
    | some list => list.Items
    | none => []
  | none => []

/-- The live objects of a resource type after replacement filtering. -/
def remainingItems (spewOther : Value → String) (dynClient : DynClient) (groupVersion : String)
    (resource : APIResource) : List Unstructured :=
  match deletedAPIReplacements.lookup (groupVersion ++ "/" ++ resource.Kind) with
  | some newAPI =>
    (liveItems dynClient groupVersion resource.Name).filter fun o =>
      decide (∀ n ∈ liveItems dynClient newAPI.GroupVersion newAPI.ResourceName,
        uidKey spewOther n ≠ uidKey spewOther o)
  | none => liveItems dynClient groupVersion resource.Name

/-- The entry a run that returns reports for a discovered resource type outside
the skipped group/versions, when one is due. -/
def entryFor (spewOther : Value → String) (kubeAPIs : KubernetesAPIs) (dynClient : DynClient)
    (groupVersion : String) (resource : APIResource) : Option DeletedAPI :=
  if '/' ∉ resource.Name.data ∧ groupVersion ++ "/" ++ resource.Kind ∉ kubeAPIs ∧
      (remainingItems spewOther dynClient groupVersion resource).length > 0 then
    some
      { Deleted := true
        Name := resource.Name
        Group := ((ParseGroupVersion groupVersion).map fun gv => gv.Group).getD ""
        Kind := resource.Kind
        Version := ((ParseGroupVersion groupVersion).map fun gv => gv.Version).getD ""
        Items := ListObjects (remainingItems spewOther dynClient groupVersion resource) }
  else none

/-- The entries a run that returns reports for one discovered group/version. -/
def entriesFor (spewOther : Value → String) (kubeAPIs : KubernetesAPIs) (dynClient : DynClient)
    (ignore : ignoreStruct) (rgv : APIResourceList) : List DeletedAPI :=
  if groupSegment rgv.GroupVersion ∈ ignore then []
  else rgv.APIResources.filterMap (entryFor spewOther kubeAPIs dynClient rgv.GroupVersion)

/-! ## Clusters and objects used as concrete inputs -/

/-- A dynamic client that answers every `List` call with the same items and no
error. -/
def serving (items : List Unstructured) : DynClient :=
  fun _ => ⟨some ⟨items⟩, none⟩

/-- A dynamic client that answers from a table of replies; a resource outside
the table is "not found", with no list, as the client library answers on error. -/
def clusterOf (replies : List (GroupVersionResource × ListReply)) : DynClient :=
  fun gvr => (replies.lookup gvr).getD ⟨none, some .NotFound⟩

/-- Client construction and discovery succeed with the given resources. -/
def clientsReady (resources : List APIResourceList) (dynClient : DynClient) : ConfigFlags :=
  { toRESTConfigErr := false
    discoveryClientErr := false
    serverPreferredResources := resources
    serverPreferredResourcesErr := none
    dynamicClientErr := false
    dynClient := dynClient }

/-- A stand-in for the text go-spew prints for values that are neither nil nor
strings, for inputs that hold no such uid. -/
def spewBlank : Value → String := fun _ => ""

/-- An object with the given uid value in its metadata. -/
def withUID (uid : Value) : Unstructured :=
  ⟨[("metadata", .map [("uid", uid)])]⟩

/-- An object whose metadata map has no uid. -/
def withoutUID : Unstructured :=
  ⟨[("metadata", .map [])]⟩

/-- A namespaced object with the given name and uid. -/
def liveObject (name uid : String) : Unstructured :=
  ⟨[("metadata", .map [("name", .str name), ("namespace", .str "default"), ("uid", .str uid)])]⟩

/-- The replacement identity of Ingress. -/
def ingressV1 : groupResourceKind := ⟨"networking.k8s.io/v1", "ingresses", "Ingress"⟩

/-- The resource the replacement identity of Ingress is listed under. -/
def ingressV1GVR : GroupVersionResource := ⟨"networking.k8s.io", "v1", "ingresses"⟩

/-- An APIService object of group "sample.io" without `spec.service`. -/
def localAPIService : Unstructured :=
  ⟨[("spec", .map [("group", .str "sample.io"), ("version", .str "v1")])]⟩

/-- An APIService object of group "sample.io" backed by a service. -/
def aggregatedAPIService : Unstructured :=
  ⟨[("spec", .map [("group", .str "sample.io"), ("version", .str "v1"),
      ("service", .map [("name", .str "sample-api"), ("namespace", .str "default")])])]⟩

/-- An APIService object backed by a service and declaring group "v1". -/
def aggregatedV1 : Unstructured :=
  ⟨[("spec", .map [("group", .str "v1"), ("version", .str "v1"),
      ("service", .map [("name", .str "v1-api"), ("namespace", .str "default")])])]⟩

/-- A cluster with an aggregated API group named "v1" and one live core Pod. -/
def clusterAggregatedV1 : ConfigFlags :=
  clientsReady [⟨"apiregistration.k8s.io/v1", []⟩, ⟨"v1", [⟨"pods", "Pod"⟩]⟩]
    (clusterOf
      [(⟨apiRegistration, "v1", "apiservices"⟩, ⟨some ⟨[aggregatedV1]⟩, none⟩),
       (⟨"", "v1", "pods"⟩, ⟨some ⟨[liveObject "web" "uid-1"]⟩, none⟩)])

/-- The scenario of the spec: discovery serves v1/Pod and batch/v1/Job, with one
live Job. -/
def clusterOneJob : ConfigFlags :=
  clientsReady [⟨"v1", [⟨"pods", "Pod"⟩]⟩, ⟨"batch/v1", [⟨"jobs", "Job"⟩]⟩]
    (clusterOf
      [(⟨"", "v1", "pods"⟩, ⟨some ⟨[liveObject "web" "uid-1"]⟩, none⟩),
       (⟨"batch", "v1", "jobs"⟩, ⟨some ⟨[liveObject "nightly" "uid-2"]⟩, none⟩)])

/-- A CustomResourceDefinition object whose `spec.group` is the empty string. -/
def crdEmptyGroup : Unstructured :=
  ⟨[("spec", .map [("group", .str "")])]⟩

/-- A cluster with that CustomResourceDefinition and one live core Pod. -/
def clusterEmptyGroupCRD : ConfigFlags :=
  clientsReady [⟨"apiextensions.k8s.io/v1", []⟩, ⟨"v1", [⟨"pods", "Pod"⟩]⟩]
    (clusterOf
      [(⟨crdGroup, "v1", "customresourcedefinitions"⟩, ⟨some ⟨[crdEmptyGroup]⟩, none⟩),
       (⟨"", "v1", "pods"⟩, ⟨some ⟨[liveObject "web" "uid-1"]⟩, none⟩)])

/-- A cluster whose discovery serves v1/Pod while listing pods is "not found". -/
def clusterPodsNotFound : ConfigFlags :=
  clientsReady [⟨"v1", [⟨"pods", "Pod"⟩]⟩] (clusterOf [])

/-- A cluster with a CustomResourceDefinition of group "example.com" and one
without `spec.group`. -/
def clusterExampleCRD : DynClient :=
  clusterOf
    [(⟨crdGroup, "v1", "customresourcedefinitions"⟩,
      ⟨some ⟨[⟨[("spec", .map [("group", .str "example.com")])]⟩, ⟨[("spec", .map [])]⟩]⟩, none⟩)]

/-- A cluster serving apps/v1 Deployment with the given live Deployments. -/
def clusterDeployments (items : List Unstructured) : ConfigFlags :=
  clientsReady [⟨"apps/v1", [⟨"deployments", "Deployment"⟩]⟩]
    (clusterOf [(⟨"apps", "v1", "deployments"⟩, ⟨some ⟨items⟩, none⟩)])

/-- A cluster serving Ingress under extensions/v1beta1 and networking.k8s.io/v1,
both listing the same live Ingress. -/
def clusterBothIngress : ConfigFlags :=
  clientsReady
    [⟨"extensions/v1beta1", [⟨"ingresses", "Ingress"⟩]⟩,
     ⟨"networking.k8s.io/v1", [⟨"ingresses", "Ingress"⟩]⟩]
    (clusterOf
      [(⟨"extensions", "v1beta1", "ingresses"⟩, ⟨some ⟨[liveObject "site" "uid-5"]⟩, none⟩),
       (⟨"networking.k8s.io", "v1", "ingresses"⟩, ⟨some ⟨[liveObject "site" "uid-5"]⟩, none⟩)])

/-- A cluster serving v1 pods and the sub-resource pods/status, with one live Pod. -/
def clusterPodStatus : ConfigFlags :=
  clientsReady [⟨"v1", [⟨"pods", "Pod"⟩, ⟨"pods/status", "Pod"⟩]⟩]
    (clusterOf
      [(⟨"", "v1", "pods"⟩, ⟨some ⟨[liveObject "web" "uid-1"]⟩, none⟩),
       (⟨"", "v1", "pods/status"⟩, ⟨some ⟨[liveObject "web" "uid-1"]⟩, none⟩)])

/-! ## Sequencing and loops -/

@[simp] theorem Run.andThen_ok {α β : Type} (a : α) (c : List GroupVersionResource)
    (k : α → List GroupVersionResource → Run β) : (Run.mk (.ok a) c).andThen k = k a c := rfl

@[simp] theorem Run.andThen_fatal {α β : Type} (c : List GroupVersionResource)
    (k : α → List GroupVersionResource → Run β) :
    (Run.mk (.fatal : Outcome α) c).andThen k = ⟨.fatal, c⟩ := rfl

@[simp] theorem Run.andThen_panic {α β : Type} (c : List GroupVersionResource)
    (k : α → List GroupVersionResource → Run β) :
    (Run.mk (.panic : Outcome α) c).andThen k = ⟨.panic, c⟩ := rfl

theorem forRange_nil {σ β : Type} (body : σ → β → List GroupVersionResource → Run σ)
    (s : σ) (c : List GroupVersionResource) : forRange body [] s c = ⟨.ok s, c⟩ := rfl

theorem forRange_cons {σ β : Type} (body : σ → β → List GroupVersionResource → Run σ)
    (x : β) (xs : List β) (s : σ) (c : List GroupVersionResource) :
    forRange body (x :: xs) s c = (body s x c).andThen (forRange body xs) := rfl

theorem Run.andThen_assoc {α β γ : Type} (r : Run α)
    (k : α → List GroupVersionResource → Run β) (k2 : β → List GroupVersionResource → Run γ) :
    (r.andThen k).andThen k2 = r.andThen fun a c => (k a c).andThen k2 := by
  obtain ⟨out, c⟩ := r
  cases out <;> rfl

theorem forRange_append {σ β : Type} (body : σ → β → List GroupVersionResource → Run σ)
    (xs ys : List β) (s : σ) (c : List GroupVersionResource) :
    forRange body (xs ++ ys) s c = (forRange body xs s c).andThen (forRange body ys) := by
  induction xs generalizing s c with
  | nil => rfl
  | cons x xs ih =>
    simp only [List.cons_append, forRange_cons, Run.andThen_assoc]
    congr 1
    funext a c2
    exact ih a c2

theorem Run.andThen_eq_ok {α β : Type} {r : Run α} {k : α → List GroupVersionResource → Run β}
    {b : β} {c : List GroupVersionResource} (h : r.andThen k = ⟨.ok b, c⟩) :
    ∃ a c0, r = ⟨.ok a, c0⟩ ∧ k a c0 = ⟨.ok b, c⟩ := by
  obtain ⟨out, c0⟩ := r
  cases out with
  | ok a => exact ⟨a, c0, rfl, h⟩
  | fatal => simp [Run.andThen] at h
  | panic => simp [Run.andThen] at h

theorem uidKey_isSome_iff (spewOther : Value → String) (item : Unstructured) :
    (uidKey spewOther item).isSome ↔ ∃ m, item.Object.lookup "metadata" = some (.map m) := by
  unfold uidKey
  split
  · next m h => simp [h]
  · next h =>
    simp only [Option.isSome_none, Bool.false_eq_true, false_iff, not_exists]
    intro m hm
    exact h m hm

theorem forRange_collect (spewOther : Value → String) (items : List Unstructured)
    (m : List String) (calls : List GroupVersionResource)
    (h : ∀ n ∈ items, (uidKey spewOther n).isSome) :
    forRange (fixDeletedItemsList.collect spewOther) items m calls =
      ⟨.ok ((items.filterMap (uidKey spewOther)).reverse ++ m), calls⟩ := by
  induction items generalizing m with
  | nil => rfl
  | cons x xs ih =>
    have hx := h x (List.mem_cons_self _ _)
    obtain ⟨u, hu⟩ := Option.isSome_iff_exists.mp hx
    rw [forRange_cons]
    simp only [fixDeletedItemsList.collect, hu, Run.andThen_ok]
    rw [ih _ (fun n hn => h n (List.mem_cons_of_mem _ hn))]
    simp [List.filterMap_cons, hu]

theorem forRange_keep (spewOther : Value → String) (m : List String)
    (old acc : List Unstructured) (calls : List GroupVersionResource)
    (h : ∀ o ∈ old, (uidKey spewOther o).isSome) :
    forRange (fixDeletedItemsList.keep spewOther m) old acc calls =
      ⟨.ok (acc ++ old.filter fun o => decide (∀ u ∈ uidKey spewOther o, u ∉ m)), calls⟩ := by
  induction old generalizing acc with
  | nil => simp [forRange_nil]
  | cons x xs ih =>
    have hx := h x (List.mem_cons_self _ _)
    obtain ⟨u, hu⟩ := Option.isSome_iff_exists.mp hx
    rw [forRange_cons]
    simp only [fixDeletedItemsList.keep, hu]
    by_cases hm : u ∈ m
    · simp only [hm, if_true, Run.andThen_ok]
      rw [ih _ (fun n hn => h n (List.mem_cons_of_mem _ hn))]
      simp [List.filter_cons, hu, hm]
    · simp only [hm, if_false, Run.andThen_ok]
      rw [ih _ (fun n hn => h n (List.mem_cons_of_mem _ hn))]
      simp [List.filter_cons, hu, hm]

/-! ## The replacement filter -/

theorem fixDeletedItemsList_eq (spewOther : Value → String) (dynClient : DynClient)
    (old : List Unstructured) (grk : groupResourceKind)
    (calls calls' : List GroupVersionResource) (gvr : GroupVersionResource)
    (new : UnstructuredList)
    (hget : getResources dynClient grk calls = ⟨.ok (gvr, some new), calls'⟩)
    (hold : ∀ o ∈ old, (uidKey spewOther o).isSome)
    (hnew : ∀ n ∈ new.Items, (uidKey spewOther n).isSome) :
    fixDeletedItemsList spewOther dynClient old grk calls =
      ⟨.ok (old.filter fun o =>
        decide (∀ n ∈ new.Items, uidKey spewOther n ≠ uidKey spewOther o)), calls'⟩ := by
  unfold fixDeletedItemsList
  rw [hget]
  simp only [Run.andThen_ok]
  rw [forRange_collect _ _ _ _ hnew]
  simp only [Run.andThen_ok]
  rw [forRange_keep _ _ _ _ _ hold]
  simp only [List.nil_append, List.append_nil]
  congr 2
  apply List.filter_congr
  intro o ho
  obtain ⟨u, hu⟩ := Option.isSome_iff_exists.mp (hold o ho)
  simp only [hu, Option.mem_def, Option.some.injEq, forall_eq', List.mem_reverse,
    List.mem_filterMap, not_exists, not_and, decide_eq_decide]

theorem uidKey_of_metadata (spewOther : Value → String) (item : Unstructured)
    (m : List (String × Value)) (h : item.Object.lookup "metadata" = some (.map m)) :
    uidKey spewOther item = some (spew_Sprint spewOther ((m.lookup "uid").getD .nil)) := by
  simp [uidKey, h]

theorem filter_length_of_keys {α κ : Type} [DecidableEq κ] (key : α → κ) (old new : List α)
    (hnodup : (old.map key).Nodup) (hsub : ∀ n ∈ new, ∃ o ∈ old, key o = key n) :
    (old.filter fun o => decide (∃ n ∈ new, key n = key o)).length =
      ((new.map key).dedup).length := by
  have h1 : ((old.filter fun o => decide (∃ n ∈ new, key n = key o)).map key).Nodup :=
    List.Nodup.sublist (List.Sublist.map key (List.filter_sublist old)) hnodup
  have h2 : ((new.map key).dedup).Nodup := List.nodup_dedup _
  have hperm : ((old.filter fun o => decide (∃ n ∈ new, key n = key o)).map key).Perm
      ((new.map key).dedup) := by
    rw [List.perm_ext_iff_of_nodup h1 h2]
    intro k
    simp only [List.mem_map, List.mem_filter, decide_eq_true_eq, List.mem_dedup]
    constructor
    · rintro ⟨o, ⟨_, n, hn, hno⟩, rfl⟩
      exact ⟨n, hn, hno⟩
    · rintro ⟨n, hn, rfl⟩
      obtain ⟨o, ho, hon⟩ := hsub n hn
      exact ⟨o, ⟨ho, n, hn, hon.symm⟩, hon⟩
  have := hperm.length_eq
  simpa using this

/-! ## Nested fields -/

theorem walk_of_fieldAt (val : Value) (path : List String) (v : Value)
    (h : fieldAt val path = some v) (hv : v ≠ .nil) :
    NestedFieldNoCopy.walk val path = (v, true, false) := by
  induction path generalizing val with
  | nil =>
    simp only [fieldAt, Option.some.injEq] at h
    subst h
    cases val <;> rfl
  | cons f rest ih =>
    cases val with
    | map m =>
      simp only [fieldAt] at h
      simp only [NestedFieldNoCopy.walk]
      cases hl : m.lookup f with
      | none => simp [hl] at h
      | some w =>
        simp only [hl] at h
        exact ih w h
    | nil => simp [fieldAt] at h
    | bool b => simp [fieldAt] at h
    | number n => simp [fieldAt] at h
    | str s => simp [fieldAt] at h
    | slice l => simp [fieldAt] at h

theorem fieldAt_of_walk (val : Value) (path : List String) (v : Value)
    (h : NestedFieldNoCopy.walk val path = (v, true, false)) : fieldAt val path = some v := by
  induction path generalizing val with
  | nil =>
    cases val <;> simp_all [NestedFieldNoCopy.walk, fieldAt]
  | cons f rest ih =>
    cases val with
    | map m =>
      simp only [NestedFieldNoCopy.walk] at h
      simp only [fieldAt]
      cases hl : m.lookup f with
      | none => simp [hl] at h
      | some w =>
        simp only [hl] at h ⊢
        exact ih w h
    | nil => simp [NestedFieldNoCopy.walk] at h
    | bool b => simp [NestedFieldNoCopy.walk] at h
    | number n => simp [NestedFieldNoCopy.walk] at h
    | str s => simp [NestedFieldNoCopy.walk] at h
    | slice l => simp [NestedFieldNoCopy.walk] at h

theorem walk_flags (val : Value) (path : List String) :
    NestedFieldNoCopy.walk val path = ((NestedFieldNoCopy.walk val path).1, true, false) ∨
      (NestedFieldNoCopy.walk val path).2.1 = false := by
  induction path generalizing val with
  | nil => cases val <;> simp [NestedFieldNoCopy.walk]
  | cons f rest ih =>
    cases val with
    | map m =>
      simp only [NestedFieldNoCopy.walk]
      cases hl : m.lookup f with
      | none => simp
      | some w => simpa using ih w
    | nil => simp [NestedFieldNoCopy.walk]
    | bool b => simp [NestedFieldNoCopy.walk]
    | number n => simp [NestedFieldNoCopy.walk]
    | str s => simp [NestedFieldNoCopy.walk]
    | slice l => simp [NestedFieldNoCopy.walk]

theorem NestedString_of_field (d : Unstructured) (path : List String) (s : String)
    (h : hasStringField d path s) : NestedString d.Object path = (s, true, false) := by
  have hw := walk_of_fieldAt (.map d.Object) path (.str s) h (by simp)
  simp [NestedString, NestedFieldNoCopy, hw]

theorem NestedString_skip (d : Unstructured) (path : List String)
    (h : ∀ s, ¬ hasStringField d path s) :
    (NestedString d.Object path).2.1 = false ∨ (NestedString d.Object path).2.2 = true := by
  unfold NestedString NestedFieldNoCopy
  rcases walk_flags (.map d.Object) path with hw | hw
  · rw [hw]
    have hf := fieldAt_of_walk _ _ _ hw
    cases hv : (NestedFieldNoCopy.walk (.map d.Object) path).1 with
    | str s =>
      rw [hv] at hf
      exact absurd hf (h s)
    | nil => simp
    | bool b => simp
    | number n => simp
    | slice l => simp
    | map m => simp
  · rcases hres : NestedFieldNoCopy.walk (.map d.Object) path with ⟨v, f, e⟩
    rw [hres] at hw
    simp only at hw
    subst hw
    simp

theorem populateCRDGroups_body_of_field (ignore : ignoreStruct) (d : Unstructured) (G : String)
    (h : hasStringField d ["spec", "group"] G) :
    populateCRDGroups.body ignore d = if G ∈ ignore then ignore else ignore ++ [G] := by
  simp [populateCRDGroups.body, NestedString_of_field d _ G h]

theorem populateCRDGroups_body_skip (ignore : ignoreStruct) (d : Unstructured)
    (h : ∀ G, ¬ hasStringField d ["spec", "group"] G) :
    populateCRDGroups.body ignore d = ignore := by
  unfold populateCRDGroups.body
  rcases hres : NestedString d.Object ["spec", "group"] with ⟨g, f, e⟩
  have := NestedString_skip d _ h
  rw [hres] at this
  rcases this with h1 | h1 <;> simp only at h1 <;> subst h1 <;> simp

theorem populateAPIService_body_of_fields (ignore : ignoreStruct) (d : Unstructured)
    (name G : String) (hs : hasStringField d ["spec", "service", "name"] name)
    (hg : hasStringField d ["spec", "group"] G) :
    populateAPIService.body ignore d = if G ∈ ignore then ignore else ignore ++ [G] := by
  simp [populateAPIService.body, NestedString_of_field d _ G hg,
    NestedString_of_field d _ name hs]

theorem populateAPIService_body_skip (ignore : ignoreStruct) (d : Unstructured)
    (h : (∀ name, ¬ hasStringField d ["spec", "service", "name"] name) ∨
      ∀ G, ¬ hasStringField d ["spec", "group"] G) :
    populateAPIService.body ignore d = ignore := by
  unfold populateAPIService.body
  rcases hsvc : NestedString d.Object ["spec", "service", "name"] with ⟨n, fs, es⟩
  rcases hgrp : NestedString d.Object ["spec", "group"] with ⟨g, fg, eg⟩
  rcases h with h | h
  · have := NestedString_skip d _ h
    rw [hsvc] at this
    rcases this with h1 | h1 <;> simp only at h1 <;> subst h1 <;> simp
  · have := NestedString_skip d _ h
    rw [hgrp] at this
    rcases this with h1 | h1 <;> simp only at h1 <;> subst h1 <;> simp

theorem mem_insert_group (ignore : ignoreStruct) (G g : String) :
    G ∈ (if g ∈ ignore then ignore else ignore ++ [g]) ↔ G ∈ ignore ∨ G = g := by
  by_cases hg : g ∈ ignore
  · simp only [hg, if_true]
    constructor
    · exact Or.inl
    · rintro (h | rfl)
      · exact h
      · exact hg
  · simp [hg]

theorem populateCRDGroups_body_mem (ignore : ignoreStruct) (d : Unstructured) (G : String) :
    G ∈ populateCRDGroups.body ignore d ↔ G ∈ ignore ∨ hasStringField d ["spec", "group"] G := by
  by_cases h : ∃ g, hasStringField d ["spec", "group"] g
  · obtain ⟨g, hg⟩ := h
    rw [populateCRDGroups_body_of_field ignore d g hg, mem_insert_group]
    constructor
    · rintro (h | rfl)
      · exact Or.inl h
      · exact Or.inr hg
    · rintro (h | h)
      · exact Or.inl h
      · right
        unfold hasStringField at h hg
        rw [hg] at h
        simpa using h.symm
  · rw [populateCRDGroups_body_skip ignore d (fun g hg => h ⟨g, hg⟩)]
    constructor
    · exact Or.inl
    · rintro (h1 | h1)
      · exact h1
      · exact absurd ⟨G, h1⟩ h

theorem populateAPIService_body_mem (ignore : ignoreStruct) (d : Unstructured) (G : String) :
    G ∈ populateAPIService.body ignore d ↔
      G ∈ ignore ∨ ((∃ name, hasStringField d ["spec", "service", "name"] name) ∧
        hasStringField d ["spec", "group"] G) := by
  by_cases hs : ∃ name, hasStringField d ["spec", "service", "name"] name
  · by_cases h : ∃ g, hasStringField d ["spec", "group"] g
    · obtain ⟨g, hg⟩ := h
      obtain ⟨name, hname⟩ := hs
      rw [populateAPIService_body_of_fields ignore d name g hname hg, mem_insert_group]
      constructor
      · rintro (h | rfl)
        · exact Or.inl h
        · exact Or.inr ⟨⟨name, hname⟩, hg⟩
      · rintro (h | ⟨_, h⟩)
        · exact Or.inl h
        · right
          unfold hasStringField at h hg
          rw [hg] at h
          simpa using h.symm
    · rw [populateAPIService_body_skip ignore d (Or.inr fun g hg => h ⟨g, hg⟩)]
      constructor
      · exact Or.inl
      · rintro (h1 | ⟨_, h1⟩)
        · exact h1
        · exact absurd ⟨G, h1⟩ h
  · rw [populateAPIService_body_skip ignore d (Or.inl fun n hn => hs ⟨n, hn⟩)]
    constructor
    · exact Or.inl
    · rintro (h1 | ⟨h1, _⟩)
      · exact h1
      · exact absurd h1 hs

theorem foldl_populateCRDGroups_mem (items : List Unstructured) (ignore : ignoreStruct)
    (G : String) :
    G ∈ items.foldl populateCRDGroups.body ignore ↔
      G ∈ ignore ∨ ∃ d ∈ items, hasStringField d ["spec", "group"] G := by
  induction items generalizing ignore with
  | nil => simp
  | cons x xs ih =>
    rw [List.foldl_cons, ih, populateCRDGroups_body_mem]
    simp only [List.mem_cons, exists_eq_or_imp]
    tauto

theorem foldl_populateAPIService_mem (items : List Unstructured) (ignore : ignoreStruct)
    (G : String) :
    G ∈ items.foldl populateAPIService.body ignore ↔
      G ∈ ignore ∨ ∃ d ∈ items, (∃ name, hasStringField d ["spec", "service", "name"] name) ∧
        hasStringField d ["spec", "group"] G := by
  induction items generalizing ignore with
  | nil => simp
  | cons x xs ih =>
    rw [List.foldl_cons, ih, populateAPIService_body_mem]
    simp only [List.mem_cons, exists_eq_or_imp]
    tauto

/-! ## The ignore set -/

theorem forRange_ok_invariant {σ β : Type}
    (body : σ → β → List GroupVersionResource → Run σ)
    (P : σ → List GroupVersionResource → Prop)
    (hstep : ∀ s x c s' c', P s c → body s x c = ⟨.ok s', c'⟩ → P s' c')
    (xs : List β) (s : σ) (c : List GroupVersionResource) (s' : σ)
    (c' : List GroupVersionResource) (h0 : P s c)
    (h : forRange body xs s c = ⟨.ok s', c'⟩) : P s' c' := by
  induction xs generalizing s c with
  | nil =>
    simp only [forRange_nil, Run.mk.injEq, Outcome.ok.injEq] at h
    obtain ⟨rfl, rfl⟩ := h
    exact h0
  | cons x xs ih =>
    rw [forRange_cons] at h
    obtain ⟨a, c0, hb, hrest⟩ := Run.andThen_eq_ok h
    exact ih a c0 (hstep s x c a c0 h0 hb) hrest

theorem declaredBy_mono (dynClient : DynClient) (calls calls' : List GroupVersionResource)
    (G : String) (hsub : ∀ g ∈ calls, g ∈ calls') (h : declaredBy dynClient calls G) :
    declaredBy dynClient calls' G := by
  rcases h with ⟨v, l, d, hc, h⟩ | ⟨v, l, d, hc, h⟩
  · exact Or.inl ⟨v, l, d, hsub _ hc, h⟩
  · exact Or.inr ⟨v, l, d, hsub _ hc, h⟩

theorem populateCRDGroups_declared (dynClient : DynClient) (ignore : ignoreStruct)
    (version : String) (calls : List GroupVersionResource) (ignore' : ignoreStruct)
    (calls' : List GroupVersionResource)
    (h0 : ∀ G ∈ ignore, declaredBy dynClient calls G)
    (h : populateCRDGroups ignore dynClient version calls = ⟨.ok ignore', calls'⟩) :
    ∀ G ∈ ignore', declaredBy dynClient calls' G := by
  unfold populateCRDGroups at h
  simp only at h
  have hmono : ∀ G ∈ ignore, declaredBy dynClient
      (calls ++ [⟨crdGroup, version, "customresourcedefinitions"⟩]) G :=
    fun G hG => declaredBy_mono dynClient calls _ G (fun g hg => List.mem_append_left _ hg)
      (h0 G hG)
  split at h
  · simp only [Run.mk.injEq, Outcome.ok.injEq] at h
    obtain ⟨rfl, rfl⟩ := h
    exact hmono
  · split at h
    · simp at h
    · next hnf herr =>
      split at h
      · simp at h
      · next crdList hlist =>
        simp only [Run.mk.injEq, Outcome.ok.injEq] at h
        obtain ⟨rfl, rfl⟩ := h
        intro G hG
        rw [foldl_populateCRDGroups_mem] at hG
        rcases hG with hG | ⟨d, hd, hdG⟩
        · exact hmono G hG
        · refine Or.inl ⟨version, crdList, d, by simp, ?_, hd, hdG⟩
          have herr' : (dynClient ⟨crdGroup, version, "customresourcedefinitions"⟩).err = none := by
            simpa using herr
          rcases hr : dynClient ⟨crdGroup, version, "customresourcedefinitions"⟩ with ⟨l, e⟩
          rw [hr] at hlist herr'
          simp only at hlist herr'
          rw [hlist, herr']

theorem populateAPIService_declared (dynClient : DynClient) (ignore : ignoreStruct)
    (version : String) (calls : List GroupVersionResource) (ignore' : ignoreStruct)
    (calls' : List GroupVersionResource)
    (h0 : ∀ G ∈ ignore, declaredBy dynClient calls G)
    (h : populateAPIService ignore dynClient version calls = ⟨.ok ignore', calls'⟩) :
    ∀ G ∈ ignore', declaredBy dynClient calls' G := by
  unfold populateAPIService at h
  simp only at h
  have hmono : ∀ G ∈ ignore, declaredBy dynClient
      (calls ++ [⟨apiRegistration, version, "apiservices"⟩]) G :=
    fun G hG => declaredBy_mono dynClient calls _ G (fun g hg => List.mem_append_left _ hg)
      (h0 G hG)
  split at h
  · simp only [Run.mk.injEq, Outcome.ok.injEq] at h
    obtain ⟨rfl, rfl⟩ := h
    exact hmono
  · split at h
    · simp at h
    · next hnf herr =>
      split at h
      · simp at h
      · next apisvcList hlist =>
        simp only [Run.mk.injEq, Outcome.ok.injEq] at h
        obtain ⟨rfl, rfl⟩ := h
        intro G hG
        rw [foldl_populateAPIService_mem] at hG
        rcases hG with hG | ⟨d, hd, hdG⟩
        · exact hmono G hG
        · refine Or.inr ⟨version, apisvcList, d, by simp, ?_, hd, hdG⟩
          have herr' : (dynClient ⟨apiRegistration, version, "apiservices"⟩).err = none := by
            simpa using herr
          rcases hr : dynClient ⟨apiRegistration, version, "apiservices"⟩ with ⟨l, e⟩
          rw [hr] at hlist herr'
          simp only at hlist herr'
          rw [hlist, herr']

theorem populate_declared (dynClient : DynClient) (ignore : ignoreStruct)
    (resources : APIResourceList) (calls : List GroupVersionResource) (ignore' : ignoreStruct)
    (calls' : List GroupVersionResource)
    (h0 : ∀ G ∈ ignore, declaredBy dynClient calls G)
    (h : GetDeleted.populate dynClient ignore resources calls = ⟨.ok ignore', calls'⟩) :
    ∀ G ∈ ignore', declaredBy dynClient calls' G := by
  unfold GetDeleted.populate at h
  obtain ⟨ig1, c1, h1, h2⟩ := Run.andThen_eq_ok h
  have hmid : ∀ G ∈ ig1, declaredBy dynClient c1 G := by
    split at h1
    · split at h1
      · simp at h1
      · exact populateCRDGroups_declared dynClient ignore _ calls ig1 c1 h0 h1
    · simp only [Run.mk.injEq, Outcome.ok.injEq] at h1
      obtain ⟨rfl, rfl⟩ := h1
      exact h0
  split at h2
  · split at h2
    · simp at h2
    · exact populateAPIService_declared dynClient ig1 _ c1 ignore' calls' hmid h2
  · simp only [Run.mk.injEq, Outcome.ok.injEq] at h2
    obtain ⟨rfl, rfl⟩ := h2
    exact hmid

/-! ## The walk over the discovered resources -/

theorem splitSlash_length (cs : List Char) : (splitSlash cs).length = cs.count '/' + 1 := by
  induction cs with
  | nil => rfl
  | cons c cs ih =>
    by_cases hc : c = '/'
    · subst hc
      simp [splitSlash, ih]
    · simp only [splitSlash, hc, if_false]
      rw [List.count_cons_of_ne (Ne.symm hc)]
      cases hs : splitSlash cs with
      | nil => simp [hs] at ih
      | cons p rest =>
        rw [hs] at ih
        simpa using ih

theorem strings_Split_length_eq_one (s : String) :
    (strings_Split s).length = 1 ↔ '/' ∉ s.data := by
  simp [strings_Split, splitSlash_length, List.count_eq_zero]

theorem resource_skip_subresource (spewOther : Value → String) (kubeAPIs : KubernetesAPIs)
    (dynClient : DynClient) (groupVersion : String) (deleted : List DeletedAPI)
    (resource : APIResource) (calls : List GroupVersionResource)
    (h : '/' ∈ resource.Name.data) :
    GetDeleted.resource spewOther kubeAPIs dynClient groupVersion deleted resource calls =
      ⟨.ok deleted, calls⟩ := by
  have : (strings_Split resource.Name).length ≠ 1 := by
    rw [Ne, strings_Split_length_eq_one]
    exact not_not.2 h
  simp [GetDeleted.resource, this]

theorem resource_skip_known (spewOther : Value → String) (kubeAPIs : KubernetesAPIs)
    (dynClient : DynClient) (groupVersion : String) (deleted : List DeletedAPI)
    (resource : APIResource) (calls : List GroupVersionResource)
    (h : groupVersion ++ "/" ++ resource.Kind ∈ kubeAPIs) :
    GetDeleted.resource spewOther kubeAPIs dynClient groupVersion deleted resource calls =
      ⟨.ok deleted, calls⟩ := by
  unfold GetDeleted.resource
  split
  · rfl
  · simp [h]

theorem calls_andThen {α β : Type} (Q : List GroupVersionResource → Prop) (r : Run α)
    (k : α → List GroupVersionResource → Run β) (hr : Q r.calls)
    (hk : ∀ a c, Q c → Q (k a c).calls) : Q (r.andThen k).calls := by
  obtain ⟨out, c⟩ := r
  cases out with
  | ok a => exact hk a c hr
  | fatal => exact hr
  | panic => exact hr

theorem calls_forRange {σ β : Type} (Q : List GroupVersionResource → Prop)
    (body : σ → β → List GroupVersionResource → Run σ)
    (hbody : ∀ s x c, Q c → Q (body s x c).calls) (xs : List β) (s : σ)
    (c : List GroupVersionResource) (hc : Q c) : Q (forRange body xs s c).calls := by
  induction xs generalizing s c with
  | nil => exact hc
  | cons x xs ih =>
    rw [forRange_cons]
    exact calls_andThen Q _ _ (hbody s x c hc) (fun a c2 h2 => ih a c2 h2)

theorem noSubresourceCall_snoc (calls : List GroupVersionResource) (gvr : GroupVersionResource)
    (h : noSubresourceCall calls) (hg : '/' ∉ gvr.Resource.data) :
    noSubresourceCall (calls ++ [gvr]) := by
  intro g hgm
  rcases List.mem_append.1 hgm with h1 | h1
  · exact h g h1
  · simp only [List.mem_singleton] at h1
    subst h1
    exact hg

theorem getResources_calls (dynClient : DynClient) (grk : groupResourceKind)
    (calls : List GroupVersionResource) (h : noSubresourceCall calls)
    (hn : '/' ∉ grk.ResourceName.data) :
    noSubresourceCall (getResources dynClient grk calls).calls := by
  unfold getResources
  split
  · exact h
  · next gv _ =>
    simp only
    have := noSubresourceCall_snoc calls ⟨gv.Group, gv.Version, grk.ResourceName⟩ h hn
    split
    · exact this
    · split
      · exact this
      · split <;> exact this

theorem populateCRDGroups_calls (dynClient : DynClient) (ignore : ignoreStruct)
    (version : String) (calls : List GroupVersionResource) (h : noSubresourceCall calls) :
    noSubresourceCall (populateCRDGroups ignore dynClient version calls).calls := by
  unfold populateCRDGroups
  simp only
  have := noSubresourceCall_snoc calls ⟨crdGroup, version, "customresourcedefinitions"⟩ h
    (show '/' ∉ "customresourcedefinitions".data by decide)
  split
  · exact this
  · split
    · exact this
    · split <;> exact this

theorem populateAPIService_calls (dynClient : DynClient) (ignore : ignoreStruct)
    (version : String) (calls : List GroupVersionResource) (h : noSubresourceCall calls) :
    noSubresourceCall (populateAPIService ignore dynClient version calls).calls := by
  unfold populateAPIService
  simp only
  have := noSubresourceCall_snoc calls ⟨apiRegistration, version, "apiservices"⟩ h
    (show '/' ∉ "apiservices".data by decide)
  split
  · exact this
  · split
    · exact this
    · split <;> exact this

theorem populate_calls (dynClient : DynClient) (ignore : ignoreStruct)
    (resources : APIResourceList) (calls : List GroupVersionResource)
    (h : noSubresourceCall calls) :
    noSubresourceCall (GetDeleted.populate dynClient ignore resources calls).calls := by
  unfold GetDeleted.populate
  apply calls_andThen noSubresourceCall
  · split
    · split
      · exact h
      · exact populateCRDGroups_calls _ _ _ _ h
    · exact h
  · intro ig c hc
    split
    · split
      · exact hc
      · exact populateAPIService_calls _ _ _ _ hc
    · exact hc

theorem lookup_replacement (key : String) (newAPI : groupResourceKind)
    (h : deletedAPIReplacements.lookup key = some newAPI) :
    newAPI = ⟨"networking.k8s.io/v1", "ingresses", "Ingress"⟩ := by
  unfold deletedAPIReplacements at h
  simp only [List.lookup] at h
  split at h
  · simp at h
    exact h.symm
  · simp at h

theorem fixDeletedItemsList_calls (spewOther : Value → String) (dynClient : DynClient)
    (old : List Unstructured) (grk : groupResourceKind) (calls : List GroupVersionResource)
    (h : noSubresourceCall calls) (hn : '/' ∉ grk.ResourceName.data) :
    noSubresourceCall (fixDeletedItemsList spewOther dynClient old grk calls).calls := by
  unfold fixDeletedItemsList
  apply calls_andThen noSubresourceCall _ _ (getResources_calls dynClient grk calls h hn)
  intro res c hc
  split
  · exact hc
  · apply calls_andThen noSubresourceCall
    · apply calls_forRange noSubresourceCall _ _ _ _ _ hc
      intro s x c2 hc2
      unfold fixDeletedItemsList.collect
      split <;> exact hc2
    · intro m c2 hc2
      apply calls_forRange noSubresourceCall _ _ _ _ _ hc2
      intro s x c3 hc3
      unfold fixDeletedItemsList.keep
      split
      · exact hc3
      · split <;> exact hc3

theorem resource_calls (spewOther : Value → String) (kubeAPIs : KubernetesAPIs)
    (dynClient : DynClient) (groupVersion : String) (deleted : List DeletedAPI)
    (resource : APIResource) (calls : List GroupVersionResource)
    (h : noSubresourceCall calls) :
    noSubresourceCall
      (GetDeleted.resource spewOther kubeAPIs dynClient groupVersion deleted resource calls).calls := by
  unfold GetDeleted.resource
  split
  · exact h
  · next hlen =>
    have hname : '/' ∉ resource.Name.data :=
      (strings_Split_length_eq_one _).1 (not_not.1 hlen)
    simp only
    split
    · exact h
    · apply calls_andThen noSubresourceCall _ _ (getResources_calls dynClient _ calls h hname)
      intro res c hc
      apply calls_andThen noSubresourceCall
      · split
        · next newAPI hl =>
          split
          · exact hc
          · apply calls_andThen noSubresourceCall
            · apply fixDeletedItemsList_calls _ _ _ _ _ hc
              rw [lookup_replacement _ _ hl]
              decide
            · intro items c2 hc2
              exact hc2
        · exact hc
      · intro list c2 hc2
        split
        · exact hc2
        · split <;> exact hc2

theorem groupVersion_calls (spewOther : Value → String) (kubeAPIs : KubernetesAPIs)
    (dynClient : DynClient) (ignoreObjects : ignoreStruct) (deleted : List DeletedAPI)
    (rgv : APIResourceList) (calls : List GroupVersionResource)
    (h : noSubresourceCall calls) :
    noSubresourceCall
      (GetDeleted.groupVersion spewOther kubeAPIs dynClient ignoreObjects deleted rgv calls).calls := by
  unfold GetDeleted.groupVersion
  split
  · exact h
  · split
    · exact h
    · exact calls_forRange noSubresourceCall _
        (fun s x c hc => resource_calls spewOther kubeAPIs dynClient _ s x c hc) _ _ _ h

theorem GetDeleted_calls (spewOther : Value → String) (kubeAPIs : KubernetesAPIs)
    (config : ConfigFlags) : noSubresourceCall (GetDeleted spewOther kubeAPIs config).calls := by
  have hnil : noSubresourceCall [] := fun g hg => absurd hg (List.not_mem_nil g)
  unfold GetDeleted
  split
  · exact hnil
  · split
    · exact hnil
    · split
      · exact hnil
      · split
        · exact hnil
        · apply calls_andThen noSubresourceCall
          · exact calls_forRange noSubresourceCall _
              (fun s x c hc => populate_calls config.dynClient s x c hc) _ _ _ hnil
          · intro ig c hc
            exact calls_forRange noSubresourceCall _
              (fun s x c2 hc2 => groupVersion_calls spewOther kubeAPIs config.dynClient ig s x c2 hc2)
              _ _ _ hc

theorem splitSlash_head (cs : List Char) :
    (splitSlash cs)[0]? = some (cs.takeWhile fun c => c != '/') := by
  induction cs with
  | nil => rfl
  | cons c cs ih =>
    by_cases hc : c = '/'
    · subst hc
      simp [splitSlash]
    · simp only [splitSlash, hc, if_false]
      cases hs : splitSlash cs with
      | nil => simp [hs] at ih
      | cons p rest =>
        rw [hs] at ih
        simp only [List.getElem?_cons_zero, Option.some.injEq] at ih
        simp [List.takeWhile_cons, hc, ih]

theorem strings_Split_head (s : String) : (strings_Split s)[0]? = some (groupSegment s) := by
  simp [strings_Split, groupSegment, splitSlash_head]

theorem getResources_ok (dynClient : DynClient) (grk : groupResourceKind)
    (calls calls' : List GroupVersionResource)
    (res : GroupVersionResource × Option UnstructuredList)
    (h : getResources dynClient grk calls = ⟨.ok res, calls'⟩) :
    ∃ gv, ParseGroupVersion grk.GroupVersion = some gv ∧
      res = (⟨gv.Group, gv.Version, grk.ResourceName⟩,
        (dynClient ⟨gv.Group, gv.Version, grk.ResourceName⟩).list) := by
  unfold getResources at h
  split at h
  · simp at h
  · next gv hgv =>
    refine ⟨gv, hgv, ?_⟩
    simp only at h
    split at h
    · simp only [Run.mk.injEq, Outcome.ok.injEq] at h
      exact h.1.symm
    · split at h
      · simp at h
      · split at h
        · simp at h
        · simp only [Run.mk.injEq, Outcome.ok.injEq] at h
          exact h.1.symm

theorem forRange_collect_ok (spewOther : Value → String) (items : List Unstructured)
    (m m' : List String) (calls calls' : List GroupVersionResource)
    (h : forRange (fixDeletedItemsList.collect spewOther) items m calls = ⟨.ok m', calls'⟩) :
    ∀ n ∈ items, (uidKey spewOther n).isSome := by
  induction items generalizing m calls with
  | nil => simp
  | cons x xs ih =>
    rw [forRange_cons] at h
    obtain ⟨a, c0, hb, hrest⟩ := Run.andThen_eq_ok h
    intro n hn
    rcases List.mem_cons.1 hn with rfl | hn
    · unfold fixDeletedItemsList.collect at hb
      split at hb
      · simp at hb
      · next u hu => simp [hu]
    · exact ih a c0 hrest n hn

theorem forRange_keep_ok (spewOther : Value → String) (m : List String)
    (old acc acc' : List Unstructured) (calls calls' : List GroupVersionResource)
    (h : forRange (fixDeletedItemsList.keep spewOther m) old acc calls = ⟨.ok acc', calls'⟩) :
    ∀ o ∈ old, (uidKey spewOther o).isSome := by
  induction old generalizing acc calls with
  | nil => simp
  | cons x xs ih =>
    rw [forRange_cons] at h
    obtain ⟨a, c0, hb, hrest⟩ := Run.andThen_eq_ok h
    intro n hn
    rcases List.mem_cons.1 hn with rfl | hn
    · unfold fixDeletedItemsList.keep at hb
      split at hb
      · simp at hb
      · next u hu => simp [hu]
    · exact ih a c0 hrest n hn

theorem fixDeletedItemsList_ok (spewOther : Value → String) (dynClient : DynClient)
    (old items : List Unstructured) (grk : groupResourceKind)
    (calls calls' : List GroupVersionResource)
    (h : fixDeletedItemsList spewOther dynClient old grk calls = ⟨.ok items, calls'⟩) :
    items = old.filter fun o =>
      decide (∀ n ∈ liveItems dynClient grk.GroupVersion grk.ResourceName,
        uidKey spewOther n ≠ uidKey spewOther o) := by
  have h' := h
  unfold fixDeletedItemsList at h'
  obtain ⟨res, c0, hget, hrest⟩ := Run.andThen_eq_ok h'
  obtain ⟨gv, hgv, hres⟩ := getResources_ok dynClient grk calls c0 res hget
  cases hl : res.2 with
  | none => simp [hl] at hrest
  | some new =>
    simp only [hl] at hrest
    obtain ⟨m, c1, hcollect, hkeep⟩ := Run.andThen_eq_ok hrest
    have hnew := forRange_collect_ok spewOther _ _ _ _ _ hcollect
    have hold := forRange_keep_ok spewOther _ _ _ _ _ _ hkeep
    have hres' : res = (res.1, some new) := by
      rw [← hl]
    rw [hres'] at hget
    have := fixDeletedItemsList_eq spewOther dynClient old grk calls c0 res.1 new hget hold hnew
    rw [this] at h
    simp only [Run.mk.injEq, Outcome.ok.injEq] at h
    have hlive : liveItems dynClient grk.GroupVersion grk.ResourceName = new.Items := by
      rw [hres] at hl
      simp only at hl
      simp [liveItems, hgv, hl]
    rw [hlive]
    exact h.1.symm

theorem resource_ok (spewOther : Value → String) (kubeAPIs : KubernetesAPIs)
    (dynClient : DynClient) (groupVersion : String) (deleted deleted' : List DeletedAPI)
    (resource : APIResource) (calls calls' : List GroupVersionResource)
    (h : GetDeleted.resource spewOther kubeAPIs dynClient groupVersion deleted resource calls =
      ⟨.ok deleted', calls'⟩) :
    deleted' = deleted ++ (entryFor spewOther kubeAPIs dynClient groupVersion resource).toList := by
  unfold GetDeleted.resource at h
  split at h
  · next hlen =>
    have hname : ¬ '/' ∉ resource.Name.data := fun hc =>
      hlen ((strings_Split_length_eq_one _).2 hc)
    simp only [Run.mk.injEq, Outcome.ok.injEq] at h
    simp [entryFor, hname, h.1]
  · next hlen =>
    have hname : '/' ∉ resource.Name.data :=
      (strings_Split_length_eq_one _).1 (not_not.1 hlen)
    simp only at h
    split at h
    · next hkey =>
      simp only [Run.mk.injEq, Outcome.ok.injEq] at h
      simp [entryFor, hkey, h.1]
    · next hkey =>
      obtain ⟨res, c0, hget, hrest⟩ := Run.andThen_eq_ok h
      obtain ⟨gv, hgv, hres⟩ := getResources_ok dynClient _ calls c0 res hget
      simp only at hgv hres
      obtain ⟨list, c1, hfix, hlast⟩ := Run.andThen_eq_ok hrest
      cases hlist : list with
      | none => simp [hlist] at hlast
      | some l =>
        simp only [hlist] at hlast
        have hrem : remainingItems spewOther dynClient groupVersion resource = l.Items := by
          unfold remainingItems
          split at hfix
          · next newAPI hl =>
            try rw [hl]
            try simp only
            split at hfix
            · simp at hfix
            · next old hold =>
              obtain ⟨items, c2, hf, hmk⟩ := Run.andThen_eq_ok hfix
              simp only [Run.mk.injEq, Outcome.ok.injEq] at hmk
              have hitems := fixDeletedItemsList_ok spewOther dynClient _ _ _ _ _ hf
              have hlive : liveItems dynClient groupVersion resource.Name = old.Items := by
                rw [hres] at hold
                simp only at hold
                simp [liveItems, hgv, hold]
              rw [hlive, ← hitems]
              have := hmk.1
              rw [hlist] at this
              simp only [Option.some.injEq] at this
              rw [← this]
          · next hl =>
            try rw [hl]
            simp only [Run.mk.injEq, Outcome.ok.injEq] at hfix
            rw [hres] at hfix
            simp only at hfix
            have := hfix.1
            rw [hlist] at this
            simp [liveItems, hgv, this]
        split at hlast
        · next hpos =>
          simp only [Run.mk.injEq, Outcome.ok.injEq] at hlast
          rw [← hlast.1]
          simp [entryFor, hname, hkey, hrem, hpos, hgv, hres]
        · next hpos =>
          simp only [Run.mk.injEq, Outcome.ok.injEq] at hlast
          rw [← hlast.1]
          simp [entryFor, hname, hkey, hrem, hpos]

theorem resources_ok (spewOther : Value → String) (kubeAPIs : KubernetesAPIs)
    (dynClient : DynClient) (groupVersion : String) (resources : List APIResource)
    (deleted deleted' : List DeletedAPI) (calls calls' : List GroupVersionResource)
    (h : forRange (GetDeleted.resource spewOther kubeAPIs dynClient groupVersion) resources
      deleted calls = ⟨.ok deleted', calls'⟩) :
    deleted' = deleted ++
      resources.filterMap (entryFor spewOther kubeAPIs dynClient groupVersion) := by
  induction resources generalizing deleted calls with
  | nil =>
    simp only [forRange_nil, Run.mk.injEq, Outcome.ok.injEq] at h
    simp [h.1]
  | cons r rs ih =>
    rw [forRange_cons] at h
    obtain ⟨a, c0, hb, hrest⟩ := Run.andThen_eq_ok h
    rw [ih a c0 hrest, resource_ok spewOther kubeAPIs dynClient groupVersion deleted a r calls c0 hb]
    cases hE : entryFor spewOther kubeAPIs dynClient groupVersion r <;>
      simp [List.filterMap_cons, hE]

theorem groupVersion_ok (spewOther : Value → String) (kubeAPIs : KubernetesAPIs)
    (dynClient : DynClient) (ignoreObjects : ignoreStruct) (rgv : APIResourceList)
    (deleted deleted' : List DeletedAPI) (calls calls' : List GroupVersionResource)
    (h : GetDeleted.groupVersion spewOther kubeAPIs dynClient ignoreObjects deleted rgv calls =
      ⟨.ok deleted', calls'⟩) :
    deleted' = deleted ++ entriesFor spewOther kubeAPIs dynClient ignoreObjects rgv := by
  unfold GetDeleted.groupVersion at h
  rw [strings_Split_head] at h
  simp only at h
  unfold entriesFor
  split at h
  · next hin =>
    simp only [Run.mk.injEq, Outcome.ok.injEq] at h
    simp [hin, h.1]
  · next hin =>
    simp only [hin, if_false]
    exact resources_ok spewOther kubeAPIs dynClient _ _ _ _ _ _ h

theorem walk_ok (spewOther : Value → String) (kubeAPIs : KubernetesAPIs)
    (dynClient : DynClient) (ignoreObjects : ignoreStruct) (resourcesList : List APIResourceList)
    (deleted deleted' : List DeletedAPI) (calls calls' : List GroupVersionResource)
    (h : forRange (GetDeleted.groupVersion spewOther kubeAPIs dynClient ignoreObjects)
      resourcesList deleted calls = ⟨.ok deleted', calls'⟩) :
    deleted' = deleted ++
      resourcesList.flatMap (entriesFor spewOther kubeAPIs dynClient ignoreObjects) := by
  induction resourcesList generalizing deleted calls with
  | nil =>
    simp only [forRange_nil, Run.mk.injEq, Outcome.ok.injEq] at h
    simp [h.1]
  | cons r rs ih =>
    rw [forRange_cons] at h
    obtain ⟨a, c0, hb, hrest⟩ := Run.andThen_eq_ok h
    rw [ih a c0 hrest, groupVersion_ok spewOther kubeAPIs dynClient ignoreObjects r deleted a
      calls c0 hb]
    simp [List.flatMap_cons]

theorem GetDeleted_returns (spewOther : Value → String) (kubeAPIs : KubernetesAPIs)
    (config : ConfigFlags) (deleted : List DeletedAPI) (calls : List GroupVersionResource)
    (h : GetDeleted spewOther kubeAPIs config = ⟨.ok deleted, calls⟩) :
    ∃ ignoreObjects calls0,
      GetDeleted.ignoreObjects config.dynClient config.serverPreferredResources =
        ⟨.ok ignoreObjects, calls0⟩ ∧
      deleted = config.serverPreferredResources.flatMap
        (entriesFor spewOther kubeAPIs config.dynClient ignoreObjects) := by
  unfold GetDeleted at h
  split at h
  · simp at h
  · split at h
    · simp at h
    · split at h
      · simp at h
      · split at h
        · simp at h
        · obtain ⟨ig, c0, hig, hwalk⟩ := Run.andThen_eq_ok h
          refine ⟨ig, c0, hig, ?_⟩
          simpa using walk_ok spewOther kubeAPIs config.dynClient ig _ [] deleted c0 calls hwalk

theorem entryFor_name (spewOther : Value → String) (kubeAPIs : KubernetesAPIs)
    (dynClient : DynClient) (groupVersion : String) (resource : APIResource) (d : DeletedAPI)
    (h : entryFor spewOther kubeAPIs dynClient groupVersion resource = some d) :
    '/' ∉ d.Name.data := by
  unfold entryFor at h
  split at h
  · next hc =>
    simp only [Option.some.injEq] at h
    rw [← h]
    exact hc.1
  · simp at h

theorem populate_congr (dynClient : DynClient) (ignore : ignoreStruct)
    (r r' : APIResourceList) (calls : List GroupVersionResource)
    (h : r.GroupVersion = r'.GroupVersion) :
    GetDeleted.populate dynClient ignore r calls = GetDeleted.populate dynClient ignore r' calls := by
  unfold GetDeleted.populate
  rw [h]

theorem ignoreObjects_congr (dynClient : DynClient) (pre post : List APIResourceList)
    (r r' : APIResourceList) (h : r.GroupVersion = r'.GroupVersion) :
    GetDeleted.ignoreObjects dynClient (pre ++ r :: post) =
      GetDeleted.ignoreObjects dynClient (pre ++ r' :: post) := by
  unfold GetDeleted.ignoreObjects
  rw [forRange_append, forRange_append]
  congr 1
  funext s c
  rw [forRange_cons, forRange_cons, populate_congr dynClient s r r' c h]

theorem groupVersion_erase (spewOther : Value → String) (kubeAPIs : KubernetesAPIs)
    (dynClient : DynClient) (ignoreObjects : ignoreStruct) (groupVersion : String)
    (before after : List APIResource) (resource : APIResource) (deleted : List DeletedAPI)
    (calls : List GroupVersionResource)
    (hskip : ∀ deleted calls, GetDeleted.resource spewOther kubeAPIs dynClient groupVersion
      deleted resource calls = ⟨.ok deleted, calls⟩) :
    GetDeleted.groupVersion spewOther kubeAPIs dynClient ignoreObjects deleted
        ⟨groupVersion, before ++ resource :: after⟩ calls =
      GetDeleted.groupVersion spewOther kubeAPIs dynClient ignoreObjects deleted
        ⟨groupVersion, before ++ after⟩ calls := by
  unfold GetDeleted.groupVersion
  simp only
  split
  · rfl
  · split
    · rfl
    · rw [forRange_append, forRange_append]
      congr 1
      funext s c
      rw [forRange_cons, hskip s c, Run.andThen_ok]

theorem GetDeleted_erase (spewOther : Value → String) (kubeAPIs : KubernetesAPIs)
    (config : ConfigFlags) (pre post : List APIResourceList) (groupVersion : String)
    (before after : List APIResource) (resource : APIResource)
    (hskip : ∀ deleted calls, GetDeleted.resource spewOther kubeAPIs config.dynClient groupVersion
      deleted resource calls = ⟨.ok deleted, calls⟩)
    (hdisc : config.serverPreferredResources =
      pre ++ ⟨groupVersion, before ++ resource :: after⟩ :: post) :
    GetDeleted spewOther kubeAPIs config =
      GetDeleted spewOther kubeAPIs
        { config with serverPreferredResources := pre ++ ⟨groupVersion, before ++ after⟩ :: post } := by
  unfold GetDeleted
  simp only [hdisc]
  rw [ignoreObjects_congr config.dynClient pre post ⟨groupVersion, before ++ resource :: after⟩
    ⟨groupVersion, before ++ after⟩ rfl]
  split
  · rfl
  · split
    · rfl
    · split
      · rfl
      · split
        · rfl
        · congr 1
          funext ig c
          rw [forRange_append, forRange_append]
          congr 1
          funext s c2
          rw [forRange_cons, forRange_cons,
            groupVersion_erase spewOther kubeAPIs config.dynClient ig groupVersion before after
              resource s c2 hskip]

/-! ## The claims -/

/-- Claim C1, at an input where the code departs from it. An aggregated APIService
declares the group "v1", so the ignore set is ["v1"]. The core Pod type (group "",
version "v1") is in no ignored group, has a name without '/', is absent from the
empty catalog and has one live object, yet `GetDeleted` returns no entry and never
lists pods: it looks up "v1", the text of the group/version before its first '/',
in the ignore set. On the scenario of the spec (catalog v1/Pod, one live Job, empty
ignore set) it returns the one Job entry with one item. -/
theorem GetDeleted_skips_core_types_when_v1_ignored :
    GetDeleted.ignoreObjects clusterAggregatedV1.dynClient
        clusterAggregatedV1.serverPreferredResources =
        ⟨.ok ["v1"], [⟨apiRegistration, "v1", "apiservices"⟩]⟩ ∧
      ParseGroupVersion "v1" = some ⟨"", "v1"⟩ ∧
      "" ∉ ["v1"] ∧
      '/' ∉ "pods".data ∧
      "v1/Pod" ∉ ([] : KubernetesAPIs) ∧
      remainingItems spewBlank clusterAggregatedV1.dynClient "v1" ⟨"pods", "Pod"⟩ =
        [liveObject "web" "uid-1"] ∧
      GetDeleted spewBlank [] clusterAggregatedV1 =
        ⟨.ok [], [⟨apiRegistration, "v1", "apiservices"⟩]⟩ ∧
      GetDeleted spewBlank ["v1/Pod"] clusterOneJob =
        ⟨.ok [{ Deleted := true, Name := "jobs", Group := "batch", Kind := "Job", Version := "v1",
                Items := [⟨"default", "nightly", "uid-2"⟩] }],
          [⟨"batch", "v1", "jobs"⟩]⟩ := by
  refine ⟨rfl, rfl, by decide, by decide, by decide, rfl, rfl, rfl⟩

/-- Claim C2 (amended): a discovered resource type whose key "<groupVersion>/<Kind>" is
in the catalog contributes nothing when it is walked: the loop body leaves the
result and the log of `List` calls as they were, so the whole run (result, `List`
calls and outcome) is the run on the discovery list without that type, whatever
objects of the type are live; with the catalog holding apps/v1/Deployment and
discovery serving apps/v1 Deployment alone, the run returns no entry and issues no
`List` call. -/
theorem GetDeleted_skips_known_kinds (spewOther : Value → String) (kubeAPIs : KubernetesAPIs)
    (config : ConfigFlags) (pre post : List APIResourceList) (groupVersion : String)
    (before after : List APIResource) (resource : APIResource)
    (hkey : groupVersion ++ "/" ++ resource.Kind ∈ kubeAPIs)
    (hdisc : config.serverPreferredResources =
      pre ++ ⟨groupVersion, before ++ resource :: after⟩ :: post) :
    (∀ dynClient deleted calls,
        GetDeleted.resource spewOther kubeAPIs dynClient groupVersion deleted resource calls =
          ⟨.ok deleted, calls⟩) ∧
      GetDeleted spewOther kubeAPIs config =
        GetDeleted spewOther kubeAPIs
          { config with
            serverPreferredResources := pre ++ ⟨groupVersion, before ++ after⟩ :: post } ∧
      ∀ items, GetDeleted spewOther ["apps/v1/Deployment"] (clusterDeployments items) =
        ⟨.ok [], []⟩ := by
  refine ⟨fun dynClient deleted calls =>
      resource_skip_known spewOther kubeAPIs dynClient groupVersion deleted resource calls hkey,
    GetDeleted_erase spewOther kubeAPIs config pre post groupVersion before after resource
      (fun deleted calls =>
        resource_skip_known spewOther kubeAPIs config.dynClient groupVersion deleted resource
          calls hkey) hdisc, ?_⟩
  intro items
  rfl

/-- An instance of the amended claim C2: two live Deployments, catalogued. -/
theorem GetDeleted_skips_known_kinds_witness :
    "apps/v1" ++ "/" ++ "Deployment" ∈ ["apps/v1/Deployment"] ∧
      (clusterDeployments [liveObject "api" "uid-3", liveObject "worker" "uid-4"]).serverPreferredResources =
        [] ++ ⟨"apps/v1", [] ++ ⟨"deployments", "Deployment"⟩ :: []⟩ :: [] ∧
      GetDeleted spewBlank ["apps/v1/Deployment"]
          (clusterDeployments [liveObject "api" "uid-3", liveObject "worker" "uid-4"]) =
        GetDeleted spewBlank ["apps/v1/Deployment"]
          { clusterDeployments [liveObject "api" "uid-3", liveObject "worker" "uid-4"] with
            serverPreferredResources := [] ++ ⟨"apps/v1", [] ++ []⟩ :: [] } :=
  ⟨by decide, rfl,
    (GetDeleted_skips_known_kinds spewBlank ["apps/v1/Deployment"]
      (clusterDeployments [liveObject "api" "uid-3", liveObject "worker" "uid-4"]) [] [] "apps/v1" [] []
      ⟨"deployments", "Deployment"⟩ (by decide) rfl).2.1⟩

/-- Claim C2 as stated fails: networking.k8s.io/v1 Ingress is discovered and is in the
catalog, yet its objects are listed, for the replacement filtering of the
uncatalogued extensions/v1beta1 Ingress. -/
theorem GetDeleted_lists_known_replacement :
    "networking.k8s.io/v1" ++ "/" ++ "Ingress" ∈ ["networking.k8s.io/v1/Ingress"] ∧
      GetDeleted spewBlank ["networking.k8s.io/v1/Ingress"] clusterBothIngress =
        ⟨.ok [], [⟨"extensions", "v1beta1", "ingresses"⟩, ⟨"networking.k8s.io", "v1", "ingresses"⟩]⟩ ∧
      (⟨"networking.k8s.io", "v1", "ingresses"⟩ : GroupVersionResource) ∈
        (GetDeleted spewBlank ["networking.k8s.io/v1/Ingress"] clusterBothIngress).calls := by
  refine ⟨by decide, rfl, ?_⟩
  decide

/-- Claim C3 (amended): when the new-identity list is obtained and every item of both
lists has a metadata map, `fixDeletedItemsList` returns exactly the old items whose
printed uid (`uidKey`: the text `spew.Sprint` gives for metadata.uid) is not the
printed uid of any new item, in their original order and multiplicity; nothing
else of an item is compared. A string uid prints as itself and a missing uid as
"<nil>". -/
theorem fixDeletedItemsList_filters_by_printed_uid (spewOther : Value → String)
    (dynClient : DynClient) (old : List Unstructured) (grk : groupResourceKind)
    (calls calls' : List GroupVersionResource) (gvr : GroupVersionResource)
    (new : UnstructuredList)
    (hget : getResources dynClient grk calls = ⟨.ok (gvr, some new), calls'⟩)
    (hold : ∀ o ∈ old, ∃ m, o.Object.lookup "metadata" = some (.map m))
    (hnew : ∀ n ∈ new.Items, ∃ m, n.Object.lookup "metadata" = some (.map m)) :
    fixDeletedItemsList spewOther dynClient old grk calls =
        ⟨.ok (old.filter fun o =>
          decide (∀ n ∈ new.Items, uidKey spewOther n ≠ uidKey spewOther o)), calls'⟩ ∧
      (∀ item m, item.Object.lookup "metadata" = some (.map m) →
        (∀ s, m.lookup "uid" = some (.str s) → uidKey spewOther item = some s) ∧
        (m.lookup "uid" = none → uidKey spewOther item = some "<nil>")) := by
  refine ⟨fixDeletedItemsList_eq spewOther dynClient old grk calls calls' gvr new hget
    (fun o ho => (uidKey_isSome_iff _ _).2 (hold o ho))
    (fun n hn => (uidKey_isSome_iff _ _).2 (hnew n hn)), ?_⟩
  intro item m hm
  rw [uidKey_of_metadata spewOther item m hm]
  constructor
  · intro s hs
    simp [hs, spew_Sprint]
  · intro hs
    simp [hs, spew_Sprint]

/-- An instance of the amended claim C3: old uids a, b, a against new uid b. -/
theorem fixDeletedItemsList_filters_by_printed_uid_witness :
    getResources (serving [withUID (.str "b")]) ingressV1 [] =
        ⟨.ok (ingressV1GVR, some ⟨[withUID (.str "b")]⟩), [ingressV1GVR]⟩ ∧
      fixDeletedItemsList (fun _ => "") (serving [withUID (.str "b")])
          [withUID (.str "a"), withUID (.str "b"), withUID (.str "a")] ingressV1 [] =
        ⟨.ok [withUID (.str "a"), withUID (.str "a")], [ingressV1GVR]⟩ :=
  ⟨rfl, (fixDeletedItemsList_filters_by_printed_uid (fun _ => "") (serving [withUID (.str "b")])
    [withUID (.str "a"), withUID (.str "b"), withUID (.str "a")] ingressV1 [] [ingressV1GVR]
    ingressV1GVR ⟨[withUID (.str "b")]⟩ rfl
    (by intro o ho; simp at ho; rcases ho with rfl | rfl | rfl <;> exact ⟨_, rfl⟩)
    (by intro n hn; simp at hn; subst hn; exact ⟨_, rfl⟩)).1⟩

/-- Claim C3 as stated fails twice: an old item without a metadata map makes the
function panic, and an old item whose uid is the string "<nil>" is dropped when a
new item has no uid at all, although its uid is the uid of no new item. -/
theorem fixDeletedItemsList_not_by_uid_value :
    (fixDeletedItemsList (fun _ => "") (serving []) [⟨[]⟩] ingressV1 []).out = .panic ∧
      (metadataUID (withUID (.str "<nil>")) = some (.str "<nil>") ∧
        metadataUID withoutUID = none ∧
        (∀ n ∈ [withoutUID], metadataUID n ≠ metadataUID (withUID (.str "<nil>"))) ∧
        fixDeletedItemsList (fun _ => "") (serving [withoutUID])
            [withUID (.str "<nil>")] ingressV1 [] = ⟨.ok [], [ingressV1GVR]⟩) := by
  refine ⟨rfl, rfl, rfl, ?_, rfl⟩
  intro n hn
  simp only [List.mem_singleton] at hn
  subst hn
  intro h
  cases h

/-- Claim C4 (amended): under the conditions of C3 the filtered list has |old| minus
the number of old items whose printed uid occurs in the new list; this is |old|
minus the number of distinct printed uids of the new list when the old items have
pairwise distinct printed uids and every new printed uid is that of an old item. -/
theorem fixDeletedItemsList_length (spewOther : Value → String)
    (dynClient : DynClient) (old : List Unstructured) (grk : groupResourceKind)
    (calls calls' : List GroupVersionResource) (gvr : GroupVersionResource)
    (new : UnstructuredList)
    (hget : getResources dynClient grk calls = ⟨.ok (gvr, some new), calls'⟩)
    (hold : ∀ o ∈ old, ∃ m, o.Object.lookup "metadata" = some (.map m))
    (hnew : ∀ n ∈ new.Items, ∃ m, n.Object.lookup "metadata" = some (.map m)) :
    ∃ filtered, fixDeletedItemsList spewOther dynClient old grk calls = ⟨.ok filtered, calls'⟩ ∧
      filtered.length = old.length -
        (old.filter fun o =>
          decide (∃ n ∈ new.Items, uidKey spewOther n = uidKey spewOther o)).length ∧
      ((old.map (uidKey spewOther)).Nodup →
        (∀ n ∈ new.Items, ∃ o ∈ old, uidKey spewOther o = uidKey spewOther n) →
        filtered.length = old.length - ((new.Items.map (uidKey spewOther)).dedup).length) := by
  refine ⟨_, fixDeletedItemsList_eq spewOther dynClient old grk calls calls' gvr new hget
    (fun o ho => (uidKey_isSome_iff _ _).2 (hold o ho))
    (fun n hn => (uidKey_isSome_iff _ _).2 (hnew n hn)), ?_⟩
  have hsplit := List.length_eq_length_filter_add (l := old)
    (fun o => decide (∃ n ∈ new.Items, uidKey spewOther n = uidKey spewOther o))
  have hneg : (old.filter fun o =>
        decide (∀ n ∈ new.Items, uidKey spewOther n ≠ uidKey spewOther o)) =
      old.filter (fun o =>
        !decide (∃ n ∈ new.Items, uidKey spewOther n = uidKey spewOther o)) := by
    apply List.filter_congr
    intro o _
    rw [← decide_not]
    exact decide_eq_decide.2 (by simp)
  have hlen : (old.filter fun o =>
        decide (∀ n ∈ new.Items, uidKey spewOther n ≠ uidKey spewOther o)).length =
      old.length - (old.filter fun o =>
        decide (∃ n ∈ new.Items, uidKey spewOther n = uidKey spewOther o)).length := by
    rw [hneg]
    omega
  refine ⟨hlen, ?_⟩
  intro hnodup hsub
  rw [hlen, filter_length_of_keys (uidKey spewOther) old new.Items hnodup hsub]

/-- An instance of the amended claim C4: old uids a, b against new uid b leaves
2 - 1 items. -/
theorem fixDeletedItemsList_length_witness :
    getResources (serving [withUID (.str "b")]) ingressV1 [] =
        ⟨.ok (ingressV1GVR, some ⟨[withUID (.str "b")]⟩), [ingressV1GVR]⟩ ∧
      ∃ filtered, fixDeletedItemsList (fun _ => "") (serving [withUID (.str "b")])
          [withUID (.str "a"), withUID (.str "b")] ingressV1 [] =
            ⟨.ok filtered, [ingressV1GVR]⟩ ∧
        filtered.length = 2 - 1 :=
  ⟨rfl,
    (fixDeletedItemsList_length (fun _ => "") (serving [withUID (.str "b")])
      [withUID (.str "a"), withUID (.str "b")] ingressV1 [] [ingressV1GVR]
      ingressV1GVR ⟨[withUID (.str "b")]⟩ rfl
      (by intro o ho; simp at ho; rcases ho with rfl | rfl <;> exact ⟨_, rfl⟩)
      (by intro n hn; simp at hn; subst hn; exact ⟨_, rfl⟩)).imp
      fun _ h => ⟨h.1, h.2.2 (by decide) (by decide)⟩⟩

/-- Claim C4 as stated fails: with one old item of uid "a" and one new item of uid "b"
the filtered list has one item, not 1 - 1 = 0. -/
theorem fixDeletedItemsList_length_not_old_minus_new :
    fixDeletedItemsList (fun _ => "") (serving [withUID (.str "b")])
        [withUID (.str "a")] ingressV1 [] = ⟨.ok [withUID (.str "a")], [ingressV1GVR]⟩ ∧
      [withUID (.str "a")].length ≠
        [withUID (.str "a")].length -
          (([withUID (.str "b")].map (uidKey fun _ => "")).dedup).length := by
  refine ⟨rfl, ?_⟩
  decide

/-- Claim C5: when the cluster lists the APIService objects `items` without error,
`populateAPIService` from the empty set ends normally with a set that holds G
exactly when some object of `items` has both a string `spec.service.name` and the
string G as `spec.group`. An APIService of group "sample.io" without
`spec.service.name` leaves the set empty; one with both fields puts "sample.io"
in it. -/
theorem populateAPIService_group_iff (dynClient : DynClient) (version : String)
    (items : List Unstructured) (calls : List GroupVersionResource)
    (h : dynClient ⟨apiRegistration, version, "apiservices"⟩ = ⟨some ⟨items⟩, none⟩) :
    (∃ ignore, populateAPIService [] dynClient version calls =
        ⟨.ok ignore, calls ++ [⟨apiRegistration, version, "apiservices"⟩]⟩ ∧
      ∀ G, G ∈ ignore ↔
        ∃ d ∈ items, (∃ name, hasStringField d ["spec", "service", "name"] name) ∧
          hasStringField d ["spec", "group"] G) ∧
      populateAPIService [] (serving [localAPIService]) "v1" [] =
        ⟨.ok [], [⟨apiRegistration, "v1", "apiservices"⟩]⟩ ∧
      populateAPIService [] (serving [aggregatedAPIService]) "v1" [] =
        ⟨.ok ["sample.io"], [⟨apiRegistration, "v1", "apiservices"⟩]⟩ := by
  refine ⟨⟨items.foldl populateAPIService.body [], ?_, ?_⟩, rfl, rfl⟩
  · simp [populateAPIService, h, apierrors_IsNotFound]
  · intro G
    rw [foldl_populateAPIService_mem]
    simp

/-- An instance of claim C5: a local and an aggregated APIService of one group. -/
theorem populateAPIService_group_iff_witness :
    serving [localAPIService, aggregatedAPIService] ⟨apiRegistration, "v1", "apiservices"⟩ =
        ⟨some ⟨[localAPIService, aggregatedAPIService]⟩, none⟩ ∧
      ∃ ignore, populateAPIService [] (serving [localAPIService, aggregatedAPIService]) "v1" [] =
          ⟨.ok ignore, [] ++ [⟨apiRegistration, "v1", "apiservices"⟩]⟩ ∧
        ∀ G, G ∈ ignore ↔
          ∃ d ∈ [localAPIService, aggregatedAPIService],
            (∃ name, hasStringField d ["spec", "service", "name"] name) ∧
              hasStringField d ["spec", "group"] G :=
  ⟨rfl, (populateAPIService_group_iff (serving [localAPIService, aggregatedAPIService]) "v1"
    [localAPIService, aggregatedAPIService] [] rfl).1⟩

/-- Claim C6: when the building of the ignore set of `GetDeleted` ends normally, every
group in it is declared, as a string `spec.group`, by a CustomResourceDefinition
object, or by an APIService object that also has a string `spec.service.name`,
which the cluster returned to one of the `List` calls of the build. An object
without a string `spec.group` leaves the set as it is in either loop, whose bodies
cannot end the run. -/
theorem ignoreObjects_declared (dynClient : DynClient) (resourcesList : List APIResourceList)
    (ignoreObjects : ignoreStruct) (calls : List GroupVersionResource)
    (h : GetDeleted.ignoreObjects dynClient resourcesList = ⟨.ok ignoreObjects, calls⟩) :
    (∀ G ∈ ignoreObjects, declaredBy dynClient calls G) ∧
      ∀ (ignore : ignoreStruct) (d : Unstructured),
        (∀ G, ¬ hasStringField d ["spec", "group"] G) →
          populateCRDGroups.body ignore d = ignore ∧ populateAPIService.body ignore d = ignore := by
  constructor
  · exact forRange_ok_invariant (GetDeleted.populate dynClient)
      (fun ig c => ∀ G ∈ ig, declaredBy dynClient c G)
      (fun s x c s' c' hP hb => populate_declared dynClient s x c s' c' hP hb)
      resourcesList [] [] ignoreObjects calls (by simp) h
  · intro ignore d hd
    exact ⟨populateCRDGroups_body_skip ignore d hd,
      populateAPIService_body_skip ignore d (Or.inr hd)⟩

/-- An instance of claim C6: one CustomResourceDefinition of group "example.com" next
to one without group. -/
theorem ignoreObjects_declared_witness :
    GetDeleted.ignoreObjects clusterExampleCRD [⟨"apiextensions.k8s.io/v1", []⟩] =
        ⟨.ok ["example.com"], [⟨crdGroup, "v1", "customresourcedefinitions"⟩]⟩ ∧
      declaredBy clusterExampleCRD [⟨crdGroup, "v1", "customresourcedefinitions"⟩]
        "example.com" :=
  ⟨rfl, (ignoreObjects_declared clusterExampleCRD [⟨"apiextensions.k8s.io/v1", []⟩]
    ["example.com"] [⟨crdGroup, "v1", "customresourcedefinitions"⟩] rfl).1 "example.com"
    (by simp)⟩

/-- Claim C7, at an input where the code departs from it. A CustomResourceDefinition
declares the empty group, so the ignore set is [""]. The core Pod type has group ""
(that of `ParseGroupVersion "v1"`), which is in the ignore set, yet `GetDeleted`
walks it and returns an entry whose Group is "": the membership test is made on
"v1", the text of the group/version before its first '/'. -/
theorem GetDeleted_reports_core_type_of_ignored_group :
    GetDeleted.ignoreObjects clusterEmptyGroupCRD.dynClient
        clusterEmptyGroupCRD.serverPreferredResources =
        ⟨.ok [""], [⟨crdGroup, "v1", "customresourcedefinitions"⟩]⟩ ∧
      GetDeleted spewBlank [] clusterEmptyGroupCRD =
        ⟨.ok [{ Deleted := true, Name := "pods", Group := "", Kind := "Pod", Version := "v1",
                Items := [⟨"default", "web", "uid-1"⟩] }],
          [⟨crdGroup, "v1", "customresourcedefinitions"⟩, ⟨"", "v1", "pods"⟩]⟩ ∧
      "" ∈ [""] := by
  refine ⟨rfl, rfl, by decide⟩

/-- Claim C8: no `List` call of `GetDeleted`, whether the run returns or is cut short,
names a resource with a '/'; no returned entry has a Name with a '/'; and walking
a resource whose name has a '/' leaves the result and the log of calls as they
were. -/
theorem GetDeleted_never_walks_subresources (spewOther : Value → String)
    (kubeAPIs : KubernetesAPIs) (config : ConfigFlags) :
    (∀ gvr ∈ (GetDeleted spewOther kubeAPIs config).calls, '/' ∉ gvr.Resource.data) ∧
      (∀ deleted, (GetDeleted spewOther kubeAPIs config).out = .ok deleted →
        ∀ d ∈ deleted, '/' ∉ d.Name.data) ∧
      ∀ dynClient groupVersion deleted (resource : APIResource) calls,
        '/' ∈ resource.Name.data →
          GetDeleted.resource spewOther kubeAPIs dynClient groupVersion deleted resource calls =
            ⟨.ok deleted, calls⟩ := by
  refine ⟨GetDeleted_calls spewOther kubeAPIs config, ?_, ?_⟩
  · intro deleted hout d hd
    have hrun : GetDeleted spewOther kubeAPIs config =
        ⟨.ok deleted, (GetDeleted spewOther kubeAPIs config).calls⟩ := by
      rw [← hout]
    obtain ⟨ig, c0, _, hdel⟩ := GetDeleted_returns spewOther kubeAPIs config deleted _ hrun
    rw [hdel] at hd
    obtain ⟨rgv, _, hmem⟩ := List.mem_flatMap.1 hd
    unfold entriesFor at hmem
    split at hmem
    · simp at hmem
    · obtain ⟨r, _, hr⟩ := List.mem_filterMap.1 hmem
      exact entryFor_name spewOther kubeAPIs config.dynClient rgv.GroupVersion r d hr
  · intro dynClient groupVersion deleted resource calls h
    exact resource_skip_subresource spewOther kubeAPIs dynClient groupVersion deleted resource
      calls h

/-- An instance of claim C8: pods and pods/status are discovered, pods alone is listed
and reported. -/
theorem GetDeleted_never_walks_subresources_witness :
    GetDeleted spewBlank [] clusterPodStatus =
        ⟨.ok [{ Deleted := true, Name := "pods", Group := "", Kind := "Pod", Version := "v1",
                Items := [⟨"default", "web", "uid-1"⟩] }], [⟨"", "v1", "pods"⟩]⟩ ∧
      '/' ∉ "pods".data :=
  ⟨rfl, (GetDeleted_never_walks_subresources spewBlank [] clusterPodStatus).2.1
    [{ Deleted := true, Name := "pods", Group := "", Kind := "Pod", Version := "v1",
       Items := [⟨"default", "web", "uid-1"⟩] }] rfl
    { Deleted := true, Name := "pods", Group := "", Kind := "Pod", Version := "v1",
      Items := [⟨"default", "web", "uid-1"⟩] } (by simp)⟩

/-- Claim C9, at an input where the code departs from it. The list call fails with
"not found" (or "method not supported") and hands back no list, as the client
library does on every error; `getResources` does not abort, but what it returns is
that nil list, not an empty one, and `GetDeleted` panics when it reads
`list.Items`. -/
theorem getResources_returns_nil_list_on_not_found :
    getResources (clusterOf []) ⟨"v1", "pods", "Pod"⟩ [] =
        ⟨.ok (⟨"", "v1", "pods"⟩, none), [⟨"", "v1", "pods"⟩]⟩ ∧
      getResources (fun _ => ⟨none, some .MethodNotSupported⟩) ⟨"v1", "pods", "Pod"⟩ [] =
        ⟨.ok (⟨"", "v1", "pods"⟩, none), [⟨"", "v1", "pods"⟩]⟩ ∧
      GetDeleted spewBlank [] clusterPodsNotFound = ⟨.panic, [⟨"", "v1", "pods"⟩]⟩ := by
  refine ⟨rfl, rfl, rfl⟩

/-- Claim C10 (amended): when the new-identity list is obtained and every item of both
lists has a metadata map, `fixDeletedItemsList` ends normally; a missing uid is
printed as "<nil>", so an old item without uid is kept exactly when no new item has
"<nil>" as printed uid, and it is dropped whenever a new item has no uid. -/
theorem fixDeletedItemsList_absent_uid (spewOther : Value → String)
    (dynClient : DynClient) (old : List Unstructured) (grk : groupResourceKind)
    (calls calls' : List GroupVersionResource) (gvr : GroupVersionResource)
    (new : UnstructuredList)
    (hget : getResources dynClient grk calls = ⟨.ok (gvr, some new), calls'⟩)
    (hold : ∀ o ∈ old, ∃ m, o.Object.lookup "metadata" = some (.map m))
    (hnew : ∀ n ∈ new.Items, ∃ m, n.Object.lookup "metadata" = some (.map m)) :
    ∃ filtered, fixDeletedItemsList spewOther dynClient old grk calls = ⟨.ok filtered, calls'⟩ ∧
      ∀ o ∈ old, (∃ m, o.Object.lookup "metadata" = some (.map m) ∧ m.lookup "uid" = none) →
        (o ∈ filtered ↔ ∀ n ∈ new.Items, uidKey spewOther n ≠ some "<nil>") ∧
        ((∃ n ∈ new.Items, ∃ m, n.Object.lookup "metadata" = some (.map m) ∧
            m.lookup "uid" = none) → o ∉ filtered) := by
  refine ⟨_, fixDeletedItemsList_eq spewOther dynClient old grk calls calls' gvr new hget
    (fun o ho => (uidKey_isSome_iff _ _).2 (hold o ho))
    (fun n hn => (uidKey_isSome_iff _ _).2 (hnew n hn)), ?_⟩
  intro o ho ⟨m, hm, huid⟩
  have hkey : uidKey spewOther o = some "<nil>" := by
    rw [uidKey_of_metadata spewOther o m hm]
    simp [huid, spew_Sprint]
  have hiff : o ∈ (old.filter fun o =>
        decide (∀ n ∈ new.Items, uidKey spewOther n ≠ uidKey spewOther o)) ↔
      ∀ n ∈ new.Items, uidKey spewOther n ≠ some "<nil>" := by
    simp only [List.mem_filter, decide_eq_true_eq, hkey]
    exact ⟨fun h => h.2, fun h => ⟨ho, h⟩⟩
  refine ⟨hiff, ?_⟩
  rintro ⟨n, hn, mn, hmn, hnuid⟩ hmem
  have hnkey : uidKey spewOther n = some "<nil>" := by
    rw [uidKey_of_metadata spewOther n mn hmn]
    simp [hnuid, spew_Sprint]
  exact hiff.1 hmem n hn hnkey

/-- An instance of the amended claim C10: the old item without uid is kept next to a
new item of uid b. -/
theorem fixDeletedItemsList_absent_uid_witness :
    getResources (serving [withUID (.str "b")]) ingressV1 [] =
        ⟨.ok (ingressV1GVR, some ⟨[withUID (.str "b")]⟩), [ingressV1GVR]⟩ ∧
      ∃ filtered, fixDeletedItemsList (fun _ => "") (serving [withUID (.str "b")])
          [withoutUID, withUID (.str "b")] ingressV1 [] = ⟨.ok filtered, [ingressV1GVR]⟩ ∧
        withoutUID ∈ filtered :=
  ⟨rfl,
    (fixDeletedItemsList_absent_uid (fun _ => "") (serving [withUID (.str "b")])
      [withoutUID, withUID (.str "b")] ingressV1 [] [ingressV1GVR]
      ingressV1GVR ⟨[withUID (.str "b")]⟩ rfl
      (by intro o ho; simp at ho; rcases ho with rfl | rfl <;> exact ⟨_, rfl⟩)
      (by intro n hn; simp at hn; subst hn; exact ⟨_, rfl⟩)).imp
      fun _ h => ⟨h.1, ((h.2 withoutUID (by simp) ⟨[], rfl, rfl⟩).1).2 (by decide)⟩⟩

/-- Claim C10 as stated fails: the old item has no uid, the only new item has a uid
(the string "<nil>"), and the old item is dropped all the same. -/
theorem fixDeletedItemsList_drops_absent_uid_for_nil_text :
    metadataUID withoutUID = none ∧
      (∀ n ∈ [withUID (.str "<nil>")], metadataUID n ≠ none) ∧
      fixDeletedItemsList (fun _ => "") (serving [withUID (.str "<nil>")])
        [withoutUID] ingressV1 [] = ⟨.ok [], [ingressV1GVR]⟩ := by
  refine ⟨rfl, ?_, rfl⟩
  intro n hn
  simp only [List.mem_singleton] at hn
  subst hn
  intro h
  cases h

end Kubepug
